import Mathlib

/-!
# tpm2.0-tools: NV read, object loading and codec utilities

A shallow embedding of `nv_read` (tools/tpm2_nvread.c), of
`tpm2_util_object_load2` and its two entry points (lib/object.c) and of the hex
codec of lib/tpm2_util.c, followed by theorems about them.

Machine integers are natural numbers with an explicit reduction modulo
`2^16` or `2^32` wherever the C code can wrap.  Calls that leave the
repository (the TSS2 system API, libc, the file helpers) are parameters of the
embedding: each definition receives what such a call returns.
-/

namespace Tpm2

/-! ## tools/tpm2_nvread.c -/

/-- Status `TPM2_RC_SUCCESS` of the TSS2 API. -/
def TPM2_RC_SUCCESS : Nat := 0

/-- Wrap-around bound of `UINT16`. -/
def UINT16_MOD : Nat := 65536

/-- Wrap-around bound of `UINT32`. -/
def UINT32_MOD : Nat := 4294967296

/-- The fields of `struct tpm_nvread_ctx` that `nv_read` reads or writes. -/
structure tpm_nvread_ctx where
  /-- Field `size_to_read`, a `UINT32`. -/
  size_to_read : Nat
  /-- Field `offset`, a `UINT32`. -/
  offset : Nat
  /-- Field `output_file`, `none` for a null pointer. -/
  output_file : Option String
deriving DecidableEq, Repr

/-- What one evaluation of `TSS2_RETRY_EXP(Tss2_Sys_NV_Read(...))` yields: the
status, and the `TPM2B_MAX_NV_BUFFER` it filled (`nv_data.size` is the length
of `data`, `nv_data.buffer` its bytes). -/
structure NvResponse where
  /-- The returned `TSS2_RC`. -/
  rval : Nat
  /-- The bytes `nv_data.buffer[0 .. nv_data.size)`. -/
  data : List Nat
deriving DecidableEq, Repr

/-- One transaction of the read loop: the `size` and `offset` arguments passed
to `Tss2_Sys_NV_Read` and what came back. -/
structure NvCall where
  /-- Argument `size` (`bytes_to_read`). -/
  size : Nat
  /-- Argument `offset` (`ctx.offset` converted to `UINT16`). -/
  offset : Nat
  /-- The response of the module. -/
  resp : NvResponse
deriving DecidableEq, Repr

/-- Everything outside the repository that `nv_read` consults. -/
structure NvEnv where
  /-- Status returned by `tpm2_util_nv_read_public`. -/
  nv_public_rval : Nat
  /-- Field `nv_public.nvPublic.dataSize`, a `UINT16`. -/
  dataSize : Nat
  /-- Status returned by `tpm2_util_nv_max_buffer_size`. -/
  max_buffer_rval : Nat
  /-- The `UINT32` that `tpm2_util_nv_max_buffer_size` stores. -/
  max_data_size : Nat
  /-- The constant `TPM2_MAX_NV_BUFFER_SIZE` of the TSS2 headers. -/
  TPM2_MAX_NV_BUFFER_SIZE : Nat
  /-- The block `malloc(data_size)` returns: `none` for a null pointer, else
  the indeterminate byte found at each position of the fresh block. -/
  malloc : Option (Nat → Nat)
  /-- The module: the response to the `n`-th transaction (counted from 0)
  when it asks for `size` bytes at `offset`. -/
  Tss2_Sys_NV_Read : (n : Nat) → (size : Nat) → (offset : Nat) → NvResponse
  /-- What `files_save_bytes_to_file` or `files_write_bytes` returns. -/
  sink_ok : Bool

/-- Where `nv_read` sends the assembled bytes. -/
inductive Sink where
  /-- Passed to `files_save_bytes_to_file(ctx.output_file, ...)`. -/
  | file (path : String)
  /-- Passed to `files_write_bytes(stdout, ...)`. -/
  | stdout
deriving DecidableEq, Repr

/-- The locals and globals the `while` loop of `nv_read` updates. -/
structure LoopState where
  /-- Global `ctx.size_to_read`. -/
  size_to_read : Nat
  /-- Global `ctx.offset`. -/
  offset : Nat
  /-- Local `data_offset`, a `UINT16`. -/
  data_offset : Nat
  /-- The block `data_buffer` points to. -/
  data_buffer : List Nat
  /-- The transactions issued so far, oldest first. -/
  calls : List NvCall
deriving DecidableEq, Repr

/-- How the `while` loop ends. -/
inductive LoopExit where
  /-- The condition `ctx.size_to_read` became 0. -/
  | done (st : LoopState)
  /-- A transaction failed: `goto out`. -/
  | failed (st : LoopState)
  /-- The `memcpy` would write past the end of `data_buffer`. -/
  | bufferOverflow (st : LoopState)
  /-- The iteration budget of the embedding ran out. -/
  | outOfFuel
deriving DecidableEq, Repr

/-- C `memcpy(dest + pos, src, |src|)` into a block of `dest.length` bytes;
`none` when the write would leave the block. -/
def memcpy (dest : List Nat) (pos : Nat) (src : List Nat) : Option (List Nat) :=
  if pos + src.length ≤ dest.length then
    some (dest.take pos ++ src ++ dest.drop (pos + src.length))
  else
    none

/-- The `while (ctx.size_to_read)` loop of `nv_read`, run for at most `fuel`
iterations.  `max_data_size` is the clamped transfer limit. -/
def nv_read_loop (env : NvEnv) (max_data_size : Nat) : Nat → LoopState → LoopExit
  | 0, st => if st.size_to_read = 0 then .done st else .outOfFuel
  | fuel + 1, st =>
    if st.size_to_read = 0 then .done st
    else
      let bytes_to_read :=
        (if st.size_to_read > max_data_size then max_data_size else st.size_to_read)
          % UINT16_MOD
      let resp := env.Tss2_Sys_NV_Read st.calls.length bytes_to_read (st.offset % UINT16_MOD)
      let calls := st.calls ++ [{ size := bytes_to_read, offset := st.offset % UINT16_MOD,
                                  resp := resp }]
      if resp.rval ≠ TPM2_RC_SUCCESS then
        .failed { st with calls := calls }
      else
        match memcpy st.data_buffer st.data_offset resp.data with
        | none => .bufferOverflow { st with calls := calls }
        | some buf =>
          nv_read_loop env max_data_size fuel
            { size_to_read := (st.size_to_read + UINT32_MOD - resp.data.length) % UINT32_MOD
              offset := (st.offset + resp.data.length) % UINT32_MOD
              data_offset := (st.data_offset + resp.data.length) % UINT16_MOD
              data_buffer := buf
              calls := calls }

/-- What a call of `nv_read` leaves behind when it returns. -/
structure NvReadResult where
  /-- The returned `bool`. -/
  result : Bool
  /-- The global `ctx` after the call. -/
  ctx : tpm_nvread_ctx
  /-- The bytes handed to a sink and the sink, `none` when no sink was called. -/
  sink : Option (Sink × List Nat)
  /-- The `Tss2_Sys_NV_Read` transactions issued, oldest first. -/
  calls : List NvCall
deriving DecidableEq, Repr

/-- How a run of `nv_read` ends. -/
inductive NvReadOutcome where
  /-- The function returned. -/
  | returned (r : NvReadResult)
  /-- The `memcpy` of the loop would write past the end of `data_buffer`. -/
  | bufferOverflow
  /-- The iteration budget of the embedding ran out. -/
  | outOfFuel
deriving DecidableEq, Repr

/-- Function `nv_read` of tools/tpm2_nvread.c; `quiet` is `flags.quiet`. -/
def nv_read (env : NvEnv) (ctx : tpm_nvread_ctx) (quiet : Bool) (fuel : Nat) :
    NvReadOutcome :=
  if env.nv_public_rval ≠ TPM2_RC_SUCCESS then
    .returned { result := false, ctx := ctx, sink := none, calls := [] }
  else
    let data_size := env.dataSize
    /- if no size was specified, assume the whole object -/
    let ctx := if ctx.size_to_read = 0 then { ctx with size_to_read := data_size } else ctx
    if ctx.offset > data_size then
      .returned { result := false, ctx := ctx, sink := none, calls := [] }
    else if (ctx.offset + ctx.size_to_read) % UINT32_MOD > data_size then
      .returned { result := false
                  ctx := { ctx with
                    size_to_read := (data_size + UINT32_MOD - ctx.offset) % UINT32_MOD }
                  sink := none, calls := [] }
    else if env.max_buffer_rval ≠ TPM2_RC_SUCCESS then
      .returned { result := false, ctx := ctx, sink := none, calls := [] }
    else
      let max_data_size :=
        if env.max_data_size > env.TPM2_MAX_NV_BUFFER_SIZE then env.TPM2_MAX_NV_BUFFER_SIZE
        else env.max_data_size
      match env.malloc with
      | none => .returned { result := false, ctx := ctx, sink := none, calls := [] }
      | some fresh =>
        match nv_read_loop env max_data_size fuel
            { size_to_read := ctx.size_to_read, offset := ctx.offset, data_offset := 0
              data_buffer := (List.range data_size).map fresh, calls := [] } with
        | .outOfFuel => .outOfFuel
        | .bufferOverflow _ => .bufferOverflow
        | .failed st =>
          .returned { result := false
                      ctx := { ctx with size_to_read := st.size_to_read, offset := st.offset }
                      sink := none, calls := st.calls }
        | .done st =>
          let ctx := { ctx with size_to_read := st.size_to_read, offset := st.offset }
          match ctx.output_file with
          | some path =>
            .returned { result := env.sink_ok, ctx := ctx
                        sink := some (.file path, st.data_buffer.take st.data_offset)
                        calls := st.calls }
          | none =>
            if !quiet then
              .returned { result := env.sink_ok, ctx := ctx
                          sink := some (.stdout, st.data_buffer.take st.data_offset)
                          calls := st.calls }
            else
              .returned { result := true, ctx := ctx, sink := none, calls := st.calls }

/-- The transfer limit `nv_read` works with: the value the module reports,
clamped to `TPM2_MAX_NV_BUFFER_SIZE` (the `if` after the query). -/
def transfer_limit (env : NvEnv) : Nat :=
  if env.max_data_size > env.TPM2_MAX_NV_BUFFER_SIZE then env.TPM2_MAX_NV_BUFFER_SIZE
  else env.max_data_size

/-- The length `nv_read` sets out to read: `ctx.size_to_read` after the
statement "if no size was specified, assume the whole object". -/
def effective_length (data_size : Nat) (ctx : tpm_nvread_ctx) : Nat :=
  if ctx.size_to_read = 0 then data_size else ctx.size_to_read

/-- The sink call a successful `nv_read` makes with the bytes `bytes`: the
output file when one is named, else stdout unless `quiet`. -/
def expected_sink (ctx : tpm_nvread_ctx) (quiet : Bool) (bytes : List Nat) :
    Option (Sink × List Nat) :=
  match ctx.output_file with
  | some path => some (.file path, bytes)
  | none => if quiet then none else some (.stdout, bytes)

/-- A module that holds the bytes `B` in the index and answers every
transaction with success and the bytes `B[offset .. offset + size)`. -/
def idealDevice (B : List Nat) : Nat → Nat → Nat → NvResponse :=
  fun _ size offset => { rval := TPM2_RC_SUCCESS, data := (B.drop offset).take size }

/-- A module that holds the bytes `B` and refuses, with `TPM2_RC_NV_RANGE`
(0x146), a transaction that reaches past the end of the index. -/
def strictDevice (B : List Nat) : Nat → Nat → Nat → NvResponse :=
  fun _ size offset =>
    if offset + size ≤ B.length then
      { rval := TPM2_RC_SUCCESS, data := (B.drop offset).take size }
    else
      { rval := 0x146, data := [] }

/-- A module that holds the bytes `B` and answers with a single byte on every
even-numbered transaction and with all the bytes asked for on the others. -/
def stutterDevice (B : List Nat) : Nat → Nat → Nat → NvResponse :=
  fun n size offset =>
    { rval := TPM2_RC_SUCCESS
      data := (B.drop offset).take (if n % 2 = 0 then min 1 size else size) }

/-- A module that holds the bytes `B` and answers like `idealDevice` until
transaction number `k`, which fails, as do all later ones, with
`TPM2_RC_FAILURE` (0x101). -/
def failingDevice (B : List Nat) (k : Nat) : Nat → Nat → Nat → NvResponse :=
  fun n size offset =>
    if n < k then { rval := TPM2_RC_SUCCESS, data := (B.drop offset).take size }
    else { rval := 0x101, data := [] }

/-- The bytes 1, 2, ..., 100: the content of the example index. -/
def nvExampleContent : List Nat := (List.range 100).map (· + 1)

/-- An environment around an index of declared size 100 in which every query
succeeds: the module is `dev`, it reports the transfer limit `limit`,
`TPM2_MAX_NV_BUFFER_SIZE` is 2048, `malloc` returns a zeroed block and the sink
accepts the bytes. -/
def nvExampleEnv (dev : Nat → Nat → Nat → NvResponse) (limit : Nat) : NvEnv :=
  { nv_public_rval := TPM2_RC_SUCCESS, dataSize := 100
    max_buffer_rval := TPM2_RC_SUCCESS, max_data_size := limit
    TPM2_MAX_NV_BUFFER_SIZE := 2048, malloc := some fun _ => 0
    Tss2_Sys_NV_Read := dev, sink_ok := true }

/-- A module that holds the bytes `B` and answers every in-range transaction
of at least one byte with success and between 1 and `size` bytes of the index
content at `offset` (a short transaction when fewer than `size`). -/
def ShortReadDevice (B : List Nat) (dev : Nat → Nat → Nat → NvResponse) : Prop :=
  ∀ n size off, 1 ≤ size → off + size ≤ B.length →
    (dev n size off).rval = TPM2_RC_SUCCESS ∧ 1 ≤ (dev n size off).data.length ∧
    (dev n size off).data.length ≤ size ∧
    (dev n size off).data = (B.drop off).take (dev n size off).data.length

/-- The transcript of a run of the read loop that starts with transaction
number `n` at offset `off` with `rem` bytes left and transfer limit `L`: every
transaction asks for `min rem L` bytes at the running offset, succeeds with
between 1 and that many bytes, and the run ends when nothing is left. -/
def Chunked (dev : Nat → Nat → Nat → NvResponse) (L : Nat) :
    Nat → Nat → Nat → List NvCall → Prop
  | _, _, rem, [] => rem = 0
  | n, off, rem, c :: cs =>
    0 < rem ∧ c.size = min rem L ∧ c.offset = off ∧ c.resp = dev n c.size c.offset ∧
    c.resp.rval = TPM2_RC_SUCCESS ∧ 1 ≤ c.resp.data.length ∧ c.resp.data.length ≤ c.size ∧
    Chunked dev L (n + 1) (off + c.resp.data.length) (rem - c.resp.data.length) cs

/-- The number of bytes the transactions of a transcript returned. -/
def bytes_returned (calls : List NvCall) : Nat :=
  (calls.map fun c => c.resp.data.length).sum

/-! ## lib/object.c -/

/-- The enumeration `tool_rc` (declared in tool_rc.h): the two values
lib/object.c names, and every other value by its number. -/
inductive tool_rc where
  /-- Value `tool_rc_success`. -/
  | tool_rc_success
  /-- Value `tool_rc_general_error`. -/
  | tool_rc_general_error
  /-- Any other value of the enumeration. -/
  | other (code : Nat)
deriving DecidableEq, Repr

/-- Struct `tpm2_loaded_object`; pointers are `none` when null. -/
structure tpm2_loaded_object where
  /-- Field `handle`, a `TPM2_HANDLE`. -/
  handle : Nat
  /-- Field `tr_handle`, an `ESYS_TR`. -/
  tr_handle : Nat
  /-- Field `path`. -/
  path : Option String
  /-- Field `session`, a `tpm2_session *` named by a number. -/
  session : Option Nat
deriving DecidableEq, Repr

/-- The calls `tpm2_util_object_load2` makes to code outside lib/object.c, in
the order it makes them. -/
inductive ObjEvent where
  /-- Call of `tpm2_auth_util_from_optarg`. -/
  | auth_from_optarg (ctx : Option Nat) (auth : Option String) (restricted : Bool)
  /-- Call of `fopen(objectstr, "rb")`. -/
  | fopen (path : String)
  /-- Call of `files_load_tpm_context_from_file`. -/
  | load_tpm_context (ctx : Option Nat) (file : Nat)
  /-- Call of `fclose`. -/
  | fclose (file : Nat)
  /-- Call of `tpm2_hierarchy_from_optarg`. -/
  | hierarchy_from_optarg (value : String)
  /-- Call of `tpm2_util_sys_handle_to_esys_handle`. -/
  | sys_handle_to_esys_handle (ctx : Option Nat) (handle : Nat)
  /-- Call of `LOG_ERR`. -/
  | log_err (msg : String)
deriving DecidableEq, Repr

/-- Everything outside lib/object.c that `tpm2_util_object_load2` consults.  A
callee that receives a pointer to a field returns `some v` when it stores `v`
there and `none` when it leaves the field alone. -/
structure ObjEnv where
  /-- The constant `TPM2_TRANSIENT_FIRST` of the TSS2 headers. -/
  TPM2_TRANSIENT_FIRST : Nat
  /-- Function `tpm2_auth_util_from_optarg`: the status and the session pointer
  it stores in `s` (which starts as null). -/
  tpm2_auth_util_from_optarg : Option Nat → Option String → Bool → tool_rc × Option Nat
  /-- Function `fopen(path, "rb")`: the stream, `none` for null. -/
  fopen : String → Option Nat
  /-- Function `files_load_tpm_context_from_file`. -/
  files_load_tpm_context_from_file : Option Nat → Nat → tool_rc × Option Nat
  /-- Function `tpm2_hierarchy_from_optarg` with the flags
  `TPM2_HIERARCHY_FLAGS_ALL|TPM2_HIERARCHY_SUPPRESS`: the handle when it
  returns true, `none` when it returns false. -/
  tpm2_hierarchy_from_optarg : String → Option Nat
  /-- Function `tpm2_util_sys_handle_to_esys_handle`. -/
  tpm2_util_sys_handle_to_esys_handle : Option Nat → Nat → tool_rc × Option Nat

/-- What a call that receives `outobject` leaves behind. -/
structure ObjResult where
  /-- The returned `tool_rc`. -/
  rc : tool_rc
  /-- The object `outobject` points to after the call. -/
  outobject : tpm2_loaded_object
  /-- The outside calls made, oldest first. -/
  trace : List ObjEvent
deriving DecidableEq, Repr

/-- Store through a pointer to `tr_handle`: `some v` writes `v`. -/
def store_tr_handle (o : tpm2_loaded_object) : Option Nat → tpm2_loaded_object
  | some v => { o with tr_handle := v }
  | none => o

/-- Function `do_ctx_file` of lib/object.c; `trace` is the calls made before. -/
def do_ctx_file (env : ObjEnv) (ctx : Option Nat) (objectstr : String) (f : Nat)
    (outobject : tpm2_loaded_object) (trace : List ObjEvent) : ObjResult :=
  /- assign a dummy transient handle -/
  let outobject := { outobject with handle := env.TPM2_TRANSIENT_FIRST }
  let outobject := { outobject with path := some objectstr }
  let r := env.files_load_tpm_context_from_file ctx f
  { rc := r.1, outobject := store_tr_handle outobject r.2
    trace := trace ++ [.load_tpm_context ctx f] }

/-- Function `tpm2_util_object_load2` of lib/object.c. -/
def tpm2_util_object_load2 (env : ObjEnv) (ctx : Option Nat) (objectstr : Option String)
    (auth : Option String) (do_auth : Bool) (outobject : tpm2_loaded_object)
    (is_restricted_pswd_session : Bool) : ObjResult :=
  let ctx := if is_restricted_pswd_session then none else ctx
  let authStep : Except ObjResult (tpm2_loaded_object × List ObjEvent) :=
    if do_auth then
      let r := env.tpm2_auth_util_from_optarg ctx auth is_restricted_pswd_session
      let trace := [ObjEvent.auth_from_optarg ctx auth is_restricted_pswd_session]
      if r.1 ≠ .tool_rc_success then
        .error { rc := r.1, outobject := outobject, trace := trace }
      else
        .ok ({ outobject with session := r.2 }, trace)
    else
      .ok (outobject, [])
  match authStep with
  | .error res => res
  | .ok (outobject, trace) =>
    match objectstr with
    | none =>
      { rc := .tool_rc_general_error, outobject := outobject
        trace := trace ++ [.log_err "object string is empty"] }
    | some objectstr =>
      /- 1. Always attempt file -/
      match env.fopen objectstr with
      | some f =>
        let r := do_ctx_file env ctx objectstr f outobject (trace ++ [.fopen objectstr])
        { r with trace := r.trace ++ [.fclose f] }
      | none =>
        /- 2. Try to convert a hierarchy or raw handle -/
        let trace := trace ++ [.fopen objectstr, .hierarchy_from_optarg objectstr]
        match env.tpm2_hierarchy_from_optarg objectstr with
        | some handle =>
          let outobject := { outobject with handle := handle }
          let outobject := { outobject with path := none }
          let r := env.tpm2_util_sys_handle_to_esys_handle ctx outobject.handle
          { rc := r.1, outobject := store_tr_handle outobject r.2
            trace := trace ++ [.sys_handle_to_esys_handle ctx outobject.handle] }
        | none =>
          { rc := .tool_rc_general_error, outobject := outobject
            trace := trace ++
              [.log_err ("Cannot make sense of object context \"" ++ objectstr ++ "\"")] }

/-- Function `tpm2_util_object_load` of lib/object.c. -/
def tpm2_util_object_load (env : ObjEnv) (ctx : Option Nat) (objectstr : Option String)
    (outobject : tpm2_loaded_object) : ObjResult :=
  tpm2_util_object_load2 env ctx objectstr none false outobject false

/-- Function `tpm2_util_object_load_auth` of lib/object.c. -/
def tpm2_util_object_load_auth (env : ObjEnv) (ctx : Option Nat) (objectstr : Option String)
    (auth : Option String) (outobject : tpm2_loaded_object)
    (is_restricted_pswd_session : Bool) : ObjResult :=
  tpm2_util_object_load2 env ctx objectstr auth true outobject is_restricted_pswd_session

/-- Whether an event is a `LOG_ERR` call. -/
def ObjEvent.isLogErr : ObjEvent → Bool
  | .log_err _ => true
  | _ => false

/-- Whether an event opens a file. -/
def ObjEvent.isFopen : ObjEvent → Bool
  | .fopen _ => true
  | _ => false

/-- Whether an event consults the hierarchy and handle parser. -/
def ObjEvent.isHierarchyParse : ObjEvent → Bool
  | .hierarchy_from_optarg _ => true
  | _ => false

/-- An example environment: the files "key.ctx" and "0x81000001" exist and
deserialize to the in-session handle 0x40418000, the parser knows the owner
hierarchy "o" and the persistent handle "0x81000001", and session setup fails
for the auth string "file:missing" only. -/
def objExampleEnv : ObjEnv :=
  { TPM2_TRANSIENT_FIRST := 0x80000000
    tpm2_auth_util_from_optarg := fun _ auth _ =>
      if auth = some "file:missing" then (.tool_rc_general_error, none)
      else (.tool_rc_success, some 7)
    fopen := fun path => if path = "key.ctx" || path = "0x81000001" then some 3 else none
    files_load_tpm_context_from_file := fun _ _ => (.tool_rc_success, some 0x40418000)
    tpm2_hierarchy_from_optarg := fun value =>
      if value = "o" then some 0x40000001
      else if value = "0x81000001" then some 0x81000001
      else none
    tpm2_util_sys_handle_to_esys_handle := fun _ handle => (.tool_rc_success, some (handle + 1)) }

/-- An output object with recognisable field values. -/
def objExampleObject : tpm2_loaded_object :=
  { handle := 11, tr_handle := 22, path := some "old", session := some 33 }

/-! ## lib/tpm2_util.c -/

/-- C `isxdigit` in the "C" locale. -/
def isxdigit (c : Char) : Bool :=
  ('0' ≤ c && c ≤ '9') || ('a' ≤ c && c ≤ 'f') || ('A' ≤ c && c ≤ 'F')

/-- C `isspace` in the "C" locale. -/
def isspace (c : Char) : Bool :=
  c = ' ' || (9 ≤ c.toNat && c.toNat ≤ 13)

/-- The value of a hexadecimal digit, 0 for any other character. -/
def hexDigitValue (c : Char) : Nat :=
  if '0' ≤ c && c ≤ '9' then c.toNat - 48
  else if 'a' ≤ c && c ≤ 'f' then c.toNat - 87
  else if 'A' ≤ c && c ≤ 'F' then c.toNat - 55
  else 0

/-- The digit loop of `strtol` in base 16: it stops at the first character
that is not a hexadecimal digit. -/
def strtol16_digits (acc : Nat) : List Char → Nat
  | [] => acc
  | c :: cs => if isxdigit c then strtol16_digits (acc * 16 + hexDigitValue c) cs else acc

/-- C `strtol(s, NULL, 16)` for a string short enough not to overflow `long`:
leading white space, an optional sign, an optional `0x` prefix, then
hexadecimal digits. -/
def strtol16 (s : List Char) : Int :=
  let s := s.dropWhile isspace
  let signed : Bool × List Char :=
    match s with
    | '-' :: t => (true, t)
    | '+' :: t => (false, t)
    | _ => (false, s)
  let digits :=
    match signed.2 with
    | '0' :: x :: d :: t => if (x = 'x' || x = 'X') && isxdigit d then d :: t else signed.2
    | _ => signed.2
  let v : Int := (strtol16_digits 0 digits : Nat)
  if signed.1 then -v else v

/-- Conversion of a `size_t` to `int` (two's complement, 32 bits). -/
def size_t_to_int (n : Nat) : Int :=
  if n % UINT32_MOD < 2147483648 then (n % UINT32_MOD : Nat) else (n % UINT32_MOD : Nat) - 4294967296

/-- What `tpm2_util_hex_to_byte_structure` leaves behind. -/
structure HexResult where
  /-- The returned `int`. -/
  rc : Int
  /-- The `UINT16` that `byteLength` points to after the call. -/
  byteLength : Nat
  /-- The bytes that `byteBuffer` points to after the call. -/
  byteBuffer : List Nat
deriving DecidableEq, Repr

/-- The byte the second loop of `tpm2_util_hex_to_byte_structure` stores at
index `i`: `tmpStr` holds `inStr[2i]` and `inStr[2i+1]`, and `strtol` reads it
in base 16; the `long` is converted to `BYTE`. -/
def hex_byte_at (inStr : List Char) (i : Nat) : Nat :=
  let tmpStr := [inStr.getD (i * 2) (Char.ofNat 0), inStr.getD (i * 2 + 1) (Char.ofNat 0)]
  (strtol16 (tmpStr.takeWhile (· ≠ Char.ofNat 0)) % 256).toNat

/-- Function `tpm2_util_hex_to_byte_structure` of lib/tpm2_util.c on non-null
arguments: `inStr` is the characters before the terminating NUL, `byteLength`
the value `*byteLength` on entry and `byteBuffer` the destination block. -/
def tpm2_util_hex_to_byte_structure (inStr : List Char) (byteLength : Nat)
    (byteBuffer : List Nat) : HexResult :=
  let strLength : Int := size_t_to_int inStr.length
  if strLength.tmod 2 ≠ 0 then
    { rc := -2, byteLength := byteLength, byteBuffer := byteBuffer }
  else if !(inStr.take strLength.toNat).all isxdigit then
    { rc := -3, byteLength := byteLength, byteBuffer := byteBuffer }
  else if (byteLength : Int) < strLength.tdiv 2 then
    { rc := -4, byteLength := byteLength, byteBuffer := byteBuffer }
  else
    let byteLength := (strLength.tdiv 2 % 65536).toNat
    { rc := 0, byteLength := byteLength
      byteBuffer := (List.range byteLength).foldl
        (fun buf i => buf.set i (hex_byte_at inStr i)) byteBuffer }

/-- Function `tpm2_util_hex_to_byte_structure` with pointer arguments that may
be null (`none`): returns -1 when one is. -/
def tpm2_util_hex_to_byte_structure_ptr (inStr : Option (List Char))
    (byteLength : Option Nat) (byteBuffer : Option (List Nat)) :
    Int × Option Nat × Option (List Nat) :=
  match inStr, byteLength, byteBuffer with
  | some s, some n, some b =>
    let r := tpm2_util_hex_to_byte_structure s n b
    (r.rc, some r.byteLength, some r.byteBuffer)
  | _, _, _ => (-1, byteLength, byteBuffer)

/-- Function `nibble_to_char` of lib/tpm2_util.c. -/
def nibble_to_char (b : Nat) : Char :=
  if b ≤ 9 then Char.ofNat (b + 0x30) else Char.ofNat (b + 0x37)

/-- Function `tpm2_util_to_hex` of lib/tpm2_util.c: the characters of the
returned string, `none` when `malloc` fails (`malloc_ok` false). -/
def tpm2_util_to_hex (malloc_ok : Bool) (bytes : List Nat) (length : Nat) :
    Option (List Char) :=
  if !malloc_ok then none
  else
    some ('0' :: 'x' :: (List.range length).flatMap fun i =>
      let low := bytes.getD i 0 &&& 0x0F
      let high := (bytes.getD i 0 &&& 0xF0) >>> 4
      let lowchar := nibble_to_char low
      let highchar := nibble_to_char high
      [highchar, lowchar])

/-- The characters `isxdigit` accepts. -/
def hexChars : List Char :=
  "FEDCBAfedcba9876543210".toList

/-! ## lib/tpm2_util.c: buffers, endianness, integer parsing -/

/-- A `TPM2B`: the field `size` and the bytes of the block `buffer`.  The view
`t` of a `TPM2B_MAX_BUFFER` has the same two fields. -/
structure TPM2B where
  /-- Field `size`, a `UINT16`. -/
  size : Nat
  /-- The block `buffer`, one entry per byte of its capacity. -/
  buffer : List Nat
deriving DecidableEq, Repr

/-- Function `tpm2_util_concat_buffer` of lib/tpm2_util.c on non-null
pointers: the returned `bool` and the buffer `result` points to afterwards.
`MAX_DIGEST_BUFFER` is the constant of the TSS2 headers.  The sum of the two
`UINT16` sizes is computed in `int`, so it does not wrap.  `none` when the
`memcpy` would read past `append->buffer` or write past `result->t.buffer`. -/
def tpm2_util_concat_buffer (MAX_DIGEST_BUFFER : Nat) (result append : TPM2B) :
    Option (Bool × TPM2B) :=
  if result.size + append.size < result.size then
    some (false, result)
  else if result.size + append.size > MAX_DIGEST_BUFFER then
    some (false, result)
  else if append.buffer.length < append.size then
    none
  else
    match memcpy result.buffer result.size (append.buffer.take append.size) with
    | none => none
    | some buf =>
      some (true, { size := (result.size + append.size) % UINT16_MOD, buffer := buf })

/-- Function `tpm2_util_concat_buffer` with pointers that may be null
(`none`): false when one is. -/
def tpm2_util_concat_buffer_ptr (MAX_DIGEST_BUFFER : Nat) (result append : Option TPM2B) :
    Option (Bool × Option TPM2B) :=
  match result, append with
  | some r, some a =>
    (tpm2_util_concat_buffer MAX_DIGEST_BUFFER r a).map fun x => (x.1, some x.2)
  | _, _ => some (false, result)

/-- Byte order of the host. -/
inductive Endianness where
  /-- Least significant byte at the lowest address. -/
  | little
  /-- Most significant byte at the lowest address. -/
  | big
deriving DecidableEq, Repr

/-- The `n` low-order bytes of `x`, least significant first. -/
def le_bytes : Nat → Nat → List Nat
  | 0, _ => []
  | n + 1, x => x % 256 :: le_bytes n (x / 256)

/-- The number whose bytes, least significant first, are `bytes`. -/
def le_value : List Nat → Nat
  | [] => 0
  | b :: bs => b + 256 * le_value bs

/-- The bytes of an `n`-byte unsigned integer `x` in host memory, lowest
address first: what `(UINT8 *)&x` points to. -/
def object_bytes (host : Endianness) (n x : Nat) : List Nat :=
  match host with
  | .little => le_bytes n x
  | .big => (le_bytes n x).reverse

/-- The unsigned integer that the host reads from the bytes `bytes` in memory,
lowest address first. -/
def object_value (host : Endianness) (bytes : List Nat) : Nat :=
  match host with
  | .little => le_value bytes
  | .big => le_value bytes.reverse

/-- Function `tpm2_util_is_big_endian` of lib/tpm2_util.c: whether the first
byte in memory of the 32-bit word 0xFF000000 is 0xFF. -/
def tpm2_util_is_big_endian (host : Endianness) : Bool :=
  let test_word := 0xFF000000
  let test_byte := object_bytes host 4 test_word
  test_byte.getD 0 0 == 0xFF

/-- Macro `STRING_BYTES_ENDIAN_CONVERT(size)` of lib/tpm2_util.c, the body of
`tpm2_util_endian_swap_<size>`: `tmp[i] = bytes[sizeof(UINT<size>) - i - 1]`. -/
def STRING_BYTES_ENDIAN_CONVERT (size : Nat) (host : Endianness) (data : Nat) : Nat :=
  let sizeof := size / 8
  let bytes := object_bytes host sizeof data
  let tmp := (List.range sizeof).map fun i => bytes.getD (sizeof - i - 1) 0
  object_value host tmp

/-- Function `tpm2_util_endian_swap_16` of lib/tpm2_util.c. -/
def tpm2_util_endian_swap_16 (host : Endianness) (data : Nat) : Nat :=
  STRING_BYTES_ENDIAN_CONVERT 16 host data

/-- Function `tpm2_util_endian_swap_32` of lib/tpm2_util.c. -/
def tpm2_util_endian_swap_32 (host : Endianness) (data : Nat) : Nat :=
  STRING_BYTES_ENDIAN_CONVERT 32 host data

/-- Function `tpm2_util_endian_swap_64` of lib/tpm2_util.c. -/
def tpm2_util_endian_swap_64 (host : Endianness) (data : Nat) : Nat :=
  STRING_BYTES_ENDIAN_CONVERT 64 host data

/-- Macro `STRING_BYTES_ENDIAN_HTON(size)` of lib/tpm2_util.c, the body of
`tpm2_util_hton_<size>`. -/
def STRING_BYTES_ENDIAN_HTON (size : Nat) (host : Endianness) (data : Nat) : Nat :=
  let is_big_endian := tpm2_util_is_big_endian host
  if is_big_endian then data
  else STRING_BYTES_ENDIAN_CONVERT size host data

/-- Function `tpm2_util_hton_16` of lib/tpm2_util.c. -/
def tpm2_util_hton_16 (host : Endianness) (data : Nat) : Nat :=
  STRING_BYTES_ENDIAN_HTON 16 host data

/-- Function `tpm2_util_hton_32` of lib/tpm2_util.c. -/
def tpm2_util_hton_32 (host : Endianness) (data : Nat) : Nat :=
  STRING_BYTES_ENDIAN_HTON 32 host data

/-- Function `tpm2_util_hton_64` of lib/tpm2_util.c. -/
def tpm2_util_hton_64 (host : Endianness) (data : Nat) : Nat :=
  STRING_BYTES_ENDIAN_HTON 64 host data

/-- Function `tpm2_util_ntoh_16` of lib/tpm2_util.c. -/
def tpm2_util_ntoh_16 (host : Endianness) (data : Nat) : Nat :=
  tpm2_util_hton_16 host data

/-- Function `tpm2_util_ntoh_32` of lib/tpm2_util.c. -/
def tpm2_util_ntoh_32 (host : Endianness) (data : Nat) : Nat :=
  tpm2_util_hton_32 host data

/-- Function `tpm2_util_ntoh_64` of lib/tpm2_util.c. -/
def tpm2_util_ntoh_64 (host : Endianness) (data : Nat) : Nat :=
  tpm2_util_hton_64 host data

/-- What the spec asks of the three conversions of one width (`n` bytes) at
the value `x` on the host `host`: the swap reverses the bytes in memory and is
its own inverse; `hton` is the identity on a big-endian host and the swap on a
little-endian one, so that its result lies in memory as the big-endian
representation of `x`; `ntoh` is `hton`, and undoes it. -/
def EndianLaws (host : Endianness) (n : Nat)
    (swap hton ntoh : Endianness → Nat → Nat) (x : Nat) : Prop :=
  object_bytes host n (swap host x) = (object_bytes host n x).reverse ∧
  swap host x < 256 ^ n ∧
  swap host (swap host x) = x ∧
  (host = .big → hton host x = x) ∧
  (host = .little → hton host x = swap host x) ∧
  object_bytes host n (hton host x) = object_bytes .big n x ∧
  ntoh host x = hton host x ∧
  ntoh host (hton host x) = x

/-- Value of `c` as a digit in base `base` (at most 36) for `strtoul`, `none`
when `c` is not a digit of that base. -/
def strtoul_digit (base : Nat) (c : Char) : Option Nat :=
  let v :=
    if '0' ≤ c && c ≤ '9' then c.toNat - 48
    else if 'a' ≤ c && c ≤ 'z' then c.toNat - 87
    else if 'A' ≤ c && c ≤ 'Z' then c.toNat - 55
    else 36
  if v < base then some v else none

/-- The digit loop of `strtoul`: the number of digits consumed so far and the
value accumulated (unbounded), then the characters left over. -/
def strtoul_digits (base : Nat) : Nat → Nat → List Char → Nat × Nat × List Char
  | n, acc, [] => (n, acc, [])
  | n, acc, c :: cs =>
    match strtoul_digit base c with
    | some v => strtoul_digits base (n + 1) (acc * base + v) cs
    | none => (n, acc, c :: cs)

/-- What `strtoul(str, &endptr, 0)` leaves behind. -/
structure StrtoulResult where
  /-- The returned `unsigned long`. -/
  value : Nat
  /-- The characters from `endptr` to the terminating NUL. -/
  endptr : List Char
  /-- The value of `errno` after the call (it is 0 before). -/
  errno : Nat
deriving DecidableEq, Repr

/-- Value `ERANGE` of `errno`. -/
def ERANGE : Nat := 34

/-- The optional sign `strtoul` reads: whether it is a minus sign, and the
characters after it. -/
def strtoul_sign (s : List Char) : Bool × List Char :=
  match s with
  | '-' :: t => (true, t)
  | '+' :: t => (false, t)
  | _ => (false, s)

/-- The base `strtoul` picks when called with base 0, and the characters its
digit loop starts at: `0x` or `0X` before a hex digit selects base 16 and is
skipped, another leading `0` selects base 8, anything else base 10. -/
def strtoul_base (s : List Char) : Nat × List Char :=
  match s with
  | '0' :: x :: d :: t =>
    if (x = 'x' || x = 'X') && isxdigit d then (16, d :: t) else (8, s)
  | '0' :: _ => (8, s)
  | _ => (10, s)

/-- C `strtoul(str, &endptr, 0)` as the C standard describes it, for an
`unsigned long` with maximum `ULONG_MAX`: white space is skipped, a sign is
optional, the base is chosen by `strtoul_base`, and the longest run of digits
is converted.  With no digit `endptr` is `str`; a value above `ULONG_MAX`
gives `ULONG_MAX` and `ERANGE`; a minus sign negates the value in
`unsigned long`. -/
def strtoul (ULONG_MAX : Nat) (str : List Char) : StrtoulResult :=
  let s := str.dropWhile isspace
  let signed := strtoul_sign s
  let based := strtoul_base signed.2
  let r := strtoul_digits based.1 0 0 based.2
  if r.1 = 0 then
    { value := 0, endptr := str, errno := 0 }
  else if r.2.1 > ULONG_MAX then
    { value := ULONG_MAX, endptr := r.2.2, errno := ERANGE }
  else
    { value := if signed.1 then (ULONG_MAX + 1 - r.2.1) % (ULONG_MAX + 1) else r.2.1
      endptr := r.2.2, errno := 0 }

/-- Function `tpm2_util_string_to_uint32` of lib/tpm2_util.c: the returned
`bool` and the `uint32_t` that `value` points to afterwards.  `str` is `none`
for a null pointer, else the characters before the terminating NUL;
`ULONG_MAX` is the maximum of the platform's `unsigned long`. -/
def tpm2_util_string_to_uint32 (ULONG_MAX : Nat) (str : Option (List Char)) (value : Nat) :
    Bool × Nat :=
  match str with
  | none => (false, value)
  | some [] => (false, value)
  | some (c :: cs) =>
    /- clear errno before the call, should be 0 afterwards -/
    let r := strtoul ULONG_MAX (c :: cs)
    let tmp := r.value % UINT32_MOD
    if r.errno ≠ 0 then (false, value)
    /- The entire string should be able to be converted or fail -/
    else if r.endptr ≠ [] then (false, value)
    else (true, tmp)

/-- Function `tpm2_util_string_to_uint16` of lib/tpm2_util.c. -/
def tpm2_util_string_to_uint16 (ULONG_MAX : Nat) (str : Option (List Char)) (value : Nat) :
    Bool × Nat :=
  let r := tpm2_util_string_to_uint32 ULONG_MAX str 0
  if !r.1 then (false, value)
  /- overflow on 16 bits? -/
  else if r.2 > 65535 then (false, value)
  else (true, r.2 % UINT16_MOD)

/-- The number a string of digits denotes in base `base`. -/
def numeral_value (base : Nat) (digits : List Char) : Nat :=
  digits.foldl (fun acc c => acc * base + (strtoul_digit base c).getD 0) 0

/-- The strings `strtoul` converts whole in base 0, with the sign read and the
magnitude denoted: optional white space, an optional sign, and then a decimal
numeral that does not start with 0, or a 0 followed by octal digits, or `0x`
or `0X` followed by at least one hex digit. -/
def AcceptedNumeral (s : List Char) (neg : Bool) (v : Nat) : Prop :=
  ∃ ws sign body, s = ws ++ (sign ++ body) ∧ (∀ c ∈ ws, isspace c = true) ∧
    ((sign = [] ∧ neg = false) ∨ (sign = ['+'] ∧ neg = false) ∨ (sign = ['-'] ∧ neg = true)) ∧
    ((∃ d ds, body = d :: ds ∧ d ≠ '0' ∧ (∀ c ∈ body, (strtoul_digit 10 c).isSome = true) ∧
        v = numeral_value 10 body) ∨
     (∃ ds, body = '0' :: ds ∧ (∀ c ∈ ds, (strtoul_digit 8 c).isSome = true) ∧
        v = numeral_value 8 ds) ∨
     (∃ x ds, body = '0' :: x :: ds ∧ (x = 'x' ∨ x = 'X') ∧ ds ≠ [] ∧
        (∀ c ∈ ds, isxdigit c = true) ∧ v = numeral_value 16 ds))

/-! ## tools/tpm2_verifysignature.c -/

/-- The eight one-bit flags of `ctx.flags` in tools/tpm2_verifysignature.c. -/
structure verifysig_flags where
  /-- Flag `key_handle`. -/
  key_handle : Bool
  /-- Flag `digest`. -/
  digest : Bool
  /-- Flag `halg`. -/
  halg : Bool
  /-- Flag `msg`. -/
  msg : Bool
  /-- Flag `raw`. -/
  raw : Bool
  /-- Flag `sig`. -/
  sig : Bool
  /-- Flag `ticket`. -/
  ticket : Bool
  /-- Flag `key_context`. -/
  key_context : Bool
deriving DecidableEq, Repr

/-- The members of `ctx.signature`, a `TPMT_SIGNATURE`, that
`generate_signature` names. -/
structure verifysig_signature where
  /-- Field `sigAlg`. -/
  sigAlg : Nat
  /-- Field `signature.rsassa.hash`. -/
  rsassa_hash : Nat
  /-- Field `signature.rsassa.sig.t.size`, a `UINT16`. -/
  rsassa_sig_size : Nat
  /-- The array `signature.rsassa.sig.t.buffer`, one entry per byte. -/
  rsassa_sig_buffer : List Nat
deriving DecidableEq, Repr

/-- Struct `tpm2_verifysig_ctx`; a path is `none` when the pointer is null. -/
structure tpm2_verifysig_ctx where
  /-- Field `flags`. -/
  flags : verifysig_flags
  /-- Field `halg`. -/
  halg : Nat
  /-- Field `msgHash`. -/
  msgHash : List Nat
  /-- Field `keyHandle`. -/
  keyHandle : Nat
  /-- Field `signature`. -/
  signature : verifysig_signature
  /-- Field `msg_file_path`. -/
  msg_file_path : Option String
  /-- Field `sig_file_path`. -/
  sig_file_path : Option String
  /-- Field `out_file_path`. -/
  out_file_path : Option String
  /-- Field `context_key_file_path`. -/
  context_key_file_path : Option String
deriving DecidableEq, Repr

/-- The calls `init` and its helpers make to code outside the file, in the
order they make them. -/
inductive VsEvent where
  /-- Call of `LOG_ERR`. -/
  | log_err (msg : String)
  /-- Call of `files_get_file_size_path`. -/
  | get_file_size (path : Option String)
  /-- Call of `calloc(1, sizeof(TPM2B) + size)`. -/
  | calloc (size : Nat)
  /-- Call of `files_load_bytes_from_path` with the capacity passed in `*size`. -/
  | load_bytes (path : Option String) (capacity : Nat)
  /-- Call of `files_load_tpm_context_from_file`. -/
  | load_tpm_context (path : Option String)
  /-- Call of `tpm_hash_compute_data` on `size` bytes with the algorithm `halg`. -/
  | hash_compute (halg : Nat) (size : Nat)
  /-- Call of `free`. -/
  | free
deriving DecidableEq, Repr

/-- Whether an event reads a file or talks to the TPM. -/
def VsEvent.touchesFileOrTpm : VsEvent → Bool
  | .get_file_size _ => true
  | .load_bytes _ _ => true
  | .load_tpm_context _ => true
  | .hash_compute _ _ => true
  | _ => false

/-- Everything outside tools/tpm2_verifysignature.c that `init` consults. -/
structure VsEnv where
  /-- Function `files_get_file_size_path`: the size, `none` when it returns false. -/
  files_get_file_size_path : Option String → Option Nat
  /-- Whether `calloc` returns a block. -/
  calloc_ok : Bool
  /-- Function `files_load_bytes_from_path` given the capacity `*size`: the
  returned `bool` and the bytes it has stored at the start of the buffer by
  then. -/
  files_load_bytes_from_path : Option String → Nat → Bool × List Nat
  /-- Function `files_load_tpm_context_from_file`: the handle it stores, `none`
  when it returns false. -/
  files_load_tpm_context_from_file : Option String → Option Nat
  /-- Function `tpm_hash_compute_data`: the returned `int` and the digest it
  stores in `ctx.msgHash`. -/
  tpm_hash_compute_data : Nat → List Nat → Nat → Int × List Nat
  /-- The constant `TPM_ALG_RSASSA`. -/
  TPM_ALG_RSASSA : Nat
  /-- The value of `sizeof(ctx.signature)`. -/
  sizeof_signature : Nat
  /-- The value of `sizeof(ctx.signature.signature.rsassa.sig)`. -/
  sizeof_rsassa_sig : Nat
  /-- The `TPMT_SIGNATURE` that results from storing the given bytes at the
  start of the object representation of the given one, which is what a load
  through `(UINT8 *) &ctx.signature` does.  The layout of the struct in the
  TSS2 headers and the byte order of the host decide which members the bytes
  land in. -/
  signature_overwrite : verifysig_signature → List Nat → verifysig_signature

/-- What `%s` prints for a string argument of `LOG_ERR`; for a null pointer
the C library the tools are built against prints `(null)`. -/
def printf_s : Option String → String
  | some s => s
  | none => "(null)"

/-- Function `message_from_file` of tools/tpm2_verifysignature.c: the message
(`none` for null) and the calls made, appended to `trace`. -/
def message_from_file (env : VsEnv) (msg_file_path : Option String) (trace : List VsEvent) :
    Option TPM2B × List VsEvent :=
  let trace := trace ++ [.get_file_size msg_file_path]
  match env.files_get_file_size_path msg_file_path with
  | none => (none, trace)
  | some size =>
    if size = 0 then
      (none, trace ++ [.log_err ("The msg file \"" ++ printf_s msg_file_path ++ "\" is empty")])
    else
      let trace := trace ++ [.calloc size]
      if !env.calloc_ok then
        (none, trace ++ [.log_err "OOM"])
      else
        let msg_size := size % UINT16_MOD
        let tmp := msg_size
        let trace := trace ++ [.load_bytes msg_file_path tmp]
        match env.files_load_bytes_from_path msg_file_path tmp with
        | (false, _) => (none, trace ++ [.free])
        | (true, bytes) =>
          (some { size := msg_size
                  buffer := bytes ++ List.replicate (size - bytes.length) 0 }, trace)

/-- The end of `generate_signature`, from the call of
`files_load_bytes_from_path` on: `ctx` is the global with the bytes the call
has stored already in place, and `loaded` the returned `bool`. -/
def generate_signature_result (ctx : tpm2_verifysig_ctx) (loaded : Bool)
    (trace : List VsEvent) : Bool × tpm2_verifysig_ctx × List VsEvent :=
  let result := loaded
  if !result then
    (result, ctx, trace ++
      [.log_err ("Could not create " ++ (if ctx.flags.raw then "raw" else "") ++
        " signature from file: \"" ++ printf_s ctx.sig_file_path ++ "\"")])
  else
    (result, ctx, trace)

/-- Function `generate_signature` of tools/tpm2_verifysignature.c: the
returned `bool`, the global `ctx` afterwards and the calls made, appended to
`trace`.  With `raw` the file is loaded into the array
`ctx.signature.signature.rsassa.sig.t.buffer`; without it the file is loaded
over `ctx.signature` itself, so every member of it holds file bytes
afterwards. -/
def generate_signature (env : VsEnv) (ctx : tpm2_verifysig_ctx) (trace : List VsEvent) :
    Bool × tpm2_verifysig_ctx × List VsEvent :=
  if ctx.flags.raw then
    let signature : verifysig_signature :=
      { ctx.signature with
        sigAlg := env.TPM_ALG_RSASSA
        rsassa_hash := ctx.halg
        rsassa_sig_size := (env.sizeof_rsassa_sig - 2) % UINT16_MOD }
    /- buffer = ctx.signature.signature.rsassa.sig.t.buffer -/
    let size := signature.rsassa_sig_size
    let loaded := env.files_load_bytes_from_path ctx.sig_file_path size
    generate_signature_result
      { ctx with signature :=
          { signature with
            rsassa_sig_buffer :=
              loaded.2 ++ signature.rsassa_sig_buffer.drop loaded.2.length } }
      loaded.1 (trace ++ [.load_bytes ctx.sig_file_path size])
  else
    let size := env.sizeof_signature % UINT16_MOD
    /- buffer = (UINT8 *) &ctx.signature -/
    let loaded := env.files_load_bytes_from_path ctx.sig_file_path size
    generate_signature_result
      { ctx with signature := env.signature_overwrite ctx.signature loaded.2 }
      loaded.1 (trace ++ [.load_bytes ctx.sig_file_path size])

/-- What a call of `init` leaves behind. -/
structure InitResult where
  /-- The returned `bool`. -/
  result : Bool
  /-- The global `ctx` after the call. -/
  ctx : tpm2_verifysig_ctx
  /-- The outside calls made, oldest first. -/
  trace : List VsEvent
deriving DecidableEq, Repr

/-- The last part of `init`, from the comment "If no digest is specified,
compute it" to the label `err` and the return: `msg` is the local `msg`
(`none` for null) and `trace` the calls made so far. -/
def init_compute_digest (env : VsEnv) (ctx : tpm2_verifysig_ctx) (msg : Option TPM2B)
    (trace : List VsEvent) : InitResult :=
  /- If no digest is specified, compute it -/
  if !ctx.flags.digest then
    if !ctx.flags.msg then
      { result := false, ctx := ctx
        trace := trace ++
          [.log_err ("No digest set and no message file to compute from, " ++
            "cannot compute message hash!"), .free] }
    else
      match msg with
      | none =>
        /- not reached: the flag is set, so message_from_file returned a message -/
        { result := false, ctx := ctx, trace := trace }
      | some m =>
        let h := env.tpm_hash_compute_data ctx.halg m.buffer m.size
        let trace := trace ++ [.hash_compute ctx.halg m.size]
        if h.1 ≠ 0 then
          { result := false, ctx := { ctx with msgHash := h.2 }
            trace := trace ++ [.log_err "Compute message hash failed!", .free] }
        else
          { result := true, ctx := { ctx with msgHash := h.2 }, trace := trace ++ [.free] }
  else
    { result := true, ctx := ctx, trace := trace ++ [.free] }

/-- The part of `init` that starts at `if (ctx.flags.key_context)`. -/
def init_load_key (env : VsEnv) (ctx : tpm2_verifysig_ctx) (msg : Option TPM2B)
    (trace : List VsEvent) : InitResult :=
  if ctx.flags.key_context then
    let trace := trace ++ [.load_tpm_context ctx.context_key_file_path]
    match env.files_load_tpm_context_from_file ctx.context_key_file_path with
    | none => { result := false, ctx := ctx, trace := trace ++ [.free] }
    | some handle => init_compute_digest env { ctx with keyHandle := handle } msg trace
  else
    init_compute_digest env ctx msg trace

/-- The part of `init` that starts at `if (ctx.flags.sig)`. -/
def init_load_signature (env : VsEnv) (ctx : tpm2_verifysig_ctx) (msg : Option TPM2B)
    (trace : List VsEvent) : InitResult :=
  if ctx.flags.sig then
    match generate_signature env ctx trace with
    | (false, ctx, trace) => { result := false, ctx := ctx, trace := trace ++ [.free] }
    | (true, ctx, trace) => init_load_key env ctx msg trace
  else
    init_load_key env ctx msg trace

/-- Function `init` of tools/tpm2_verifysignature.c. -/
def init (env : VsEnv) (ctx : tpm2_verifysig_ctx) : InitResult :=
  /- check flags for mismatches -/
  if ctx.flags.digest && (ctx.flags.msg || ctx.flags.halg) then
    { result := false, ctx := ctx
      trace := [.log_err "Cannot specify --digest (-D) and ( --msg (-m) or --halg (-g) )"] }
  else if !((ctx.flags.key_handle || ctx.flags.key_context) && ctx.flags.sig
      && ctx.flags.ticket) then
    { result := false, ctx := ctx
      trace := [.log_err ("--keyHandle (-k) or --keyContext (-c) and --sig (-s) and " ++
        "--ticket (-t) must be specified")] }
  else if ctx.flags.msg then
    match message_from_file env ctx.msg_file_path [] with
    | (none, trace) =>
      /- message_from_file() logs specific error no need to here -/
      { result := false, ctx := ctx, trace := trace }
    | (some msg, trace) => init_load_signature env ctx (some msg) trace
  else
    init_load_signature env ctx none []

/-- The bytes of a `verifysig_signature` on a little-endian host whose
`TPMT_SIGNATURE` has no padding: `sigAlg`, the hash and the size, two bytes
each, and then the array. -/
def vsExampleImage (s : verifysig_signature) : List Nat :=
  le_bytes 2 s.sigAlg ++ le_bytes 2 s.rsassa_hash ++ le_bytes 2 s.rsassa_sig_size ++
    s.rsassa_sig_buffer

/-- An environment in which every file exists with 20 bytes of content, the
context file holds the handle 0x80000001, the hash always succeeds and the
host keeps a `TPMT_SIGNATURE` as `vsExampleImage` lays it out. -/
def vsExampleEnv : VsEnv :=
  { files_get_file_size_path := fun _ => some 20
    calloc_ok := true
    files_load_bytes_from_path := fun _ capacity => (true, List.replicate (min capacity 20) 7)
    files_load_tpm_context_from_file := fun _ => some 0x80000001
    tpm_hash_compute_data := fun _ _ _ => (0, List.replicate 20 1)
    TPM_ALG_RSASSA := 0x14
    sizeof_signature := 518
    sizeof_rsassa_sig := 514
    signature_overwrite := fun s bytes =>
      let image := bytes ++ (vsExampleImage s).drop bytes.length
      { sigAlg := le_value (image.take 2)
        rsassa_hash := le_value ((image.drop 2).take 2)
        rsassa_sig_size := le_value ((image.drop 4).take 2)
        rsassa_sig_buffer := image.drop 6 } }

/-- A context of tpm2_verifysignature with the given flags and every path set. -/
def vsExampleCtx (flags : verifysig_flags) : tpm2_verifysig_ctx :=
  { flags := flags, halg := 4, msgHash := [], keyHandle := 0
    signature := { sigAlg := 0, rsassa_hash := 0, rsassa_sig_size := 0
                   rsassa_sig_buffer := List.replicate 512 0 }
    msg_file_path := some "msg.bin", sig_file_path := some "sig.bin"
    out_file_path := some "ticket.bin", context_key_file_path := some "key.ctx" }

/-! ## tools/tpm2_nvread.c: transcripts of the read loop -/

/-- A module that answers every transaction with success and exactly `size`
zero bytes, wherever the transaction points. -/
def fillDevice : Nat → Nat → Nat → NvResponse :=
  fun _ size _ => { rval := TPM2_RC_SUCCESS, data := (List.range size).map fun _ => 0 }

/-- A module whose successful responses carry at most the bytes asked for. -/
def AtMostRequested (dev : Nat → Nat → Nat → NvResponse) : Prop :=
  ∀ n size off, (dev n size off).rval = TPM2_RC_SUCCESS → (dev n size off).data.length ≤ size

/-- A module whose successful responses to a request for at least one byte
carry at least one byte. -/
def MakesProgress (dev : Nat → Nat → Nat → NvResponse) : Prop :=
  ∀ n size off, 1 ≤ size → (dev n size off).rval = TPM2_RC_SUCCESS →
    1 ≤ (dev n size off).data.length

/-- The transcript of the read loop from transaction number `n` on, entered at
offset `off` with `rem` bytes left, `doff` bytes already in the destination
block of `cap` bytes, and transfer limit `L`: every transaction is issued with
bytes still left, asks for `min rem L` bytes at the running offset, and a
successful one returns no more than the bytes left, which fit the block at the
running destination offset; a failed one is the last. -/
def Issued (dev : Nat → Nat → Nat → NvResponse) (L cap : Nat) :
    Nat → Nat → Nat → Nat → List NvCall → Prop
  | _, _, _, _, [] => True
  | n, off, rem, doff, c :: cs =>
    0 < rem ∧ c.size = min rem L ∧ c.offset = off ∧ c.resp = dev n c.size c.offset ∧
    (c.resp.rval = TPM2_RC_SUCCESS →
      c.resp.data.length ≤ rem ∧ doff + c.resp.data.length ≤ cap ∧
      Issued dev L cap (n + 1) (off + c.resp.data.length) (rem - c.resp.data.length)
        (doff + c.resp.data.length) cs) ∧
    (c.resp.rval ≠ TPM2_RC_SUCCESS → cs = [])

/-! ## Theorems: tools/tpm2_nvread.c -/

theorem take_drop_split (B : List Nat) (off k r : Nat) (hk : k ≤ r) :
    (B.drop off).take k ++ (B.drop (off + k)).take (r - k) = (B.drop off).take r := by
  have h1 : B.drop (off + k) = (B.drop off).drop k := by
    rw [List.drop_drop, Nat.add_comm]
  rw [h1]
  have h2 : r = k + (r - k) := by omega
  conv_rhs => rw [h2, List.take_add]

theorem memcpy_ok (buf : List Nat) (d : Nat) (src : List Nat) (h : d + src.length ≤ buf.length) :
    ∃ buf', memcpy buf d src = some buf' ∧ buf'.length = buf.length ∧
      buf'.take (d + src.length) = buf.take d ++ src := by
  refine ⟨buf.take d ++ src ++ buf.drop (d + src.length), ?_, ?_, ?_⟩
  · simp [memcpy, h]
  · simp; omega
  · have hl : (buf.take d ++ src).length = d + src.length := by simp; omega
    rw [← hl, List.take_left]

theorem nv_read_loop_short (env : NvEnv) (L : Nat) (B : List Nat)
    (hdev : ShortReadDevice B env.Tss2_Sys_NV_Read) (hL : 0 < L) (hB : B.length < 65536) :
    ∀ (fuel : Nat) (st : LoopState), st.size_to_read ≤ fuel →
      st.offset + st.size_to_read ≤ B.length →
      st.data_offset + st.size_to_read ≤ st.data_buffer.length →
      st.data_buffer.length < 65536 →
      ∃ st', nv_read_loop env L fuel st = .done st' ∧ st'.size_to_read = 0 ∧
        st'.offset = st.offset + st.size_to_read ∧
        st'.data_offset = st.data_offset + st.size_to_read ∧
        st'.data_buffer.length = st.data_buffer.length ∧
        st'.data_buffer.take st'.data_offset =
          st.data_buffer.take st.data_offset ++ (B.drop st.offset).take st.size_to_read ∧
        ∃ new, st'.calls = st.calls ++ new ∧
          Chunked env.Tss2_Sys_NV_Read L st.calls.length st.offset st.size_to_read new := by
  intro fuel
  induction fuel with
  | zero =>
    intro st hf _ _ _
    have h0 : st.size_to_read = 0 := by omega
    refine ⟨st, by simp [nv_read_loop, h0], h0, by omega, by omega, rfl, by simp [h0], [], by simp, ?_⟩
    simp [Chunked, h0]
  | succ fuel ih =>
    intro st hf hoff hbuf hlen
    by_cases h0 : st.size_to_read = 0
    · refine ⟨st, by simp [nv_read_loop, h0], h0, by omega, by omega, rfl, by simp [h0], [], by simp, ?_⟩
      simp [Chunked, h0]
    · have hreq : (if st.size_to_read > L then L else st.size_to_read) % UINT16_MOD
          = min st.size_to_read L := by
        have : (if st.size_to_read > L then L else st.size_to_read) = min st.size_to_read L := by
          split <;> omega
        rw [this]; apply Nat.mod_eq_of_lt; simp only [UINT16_MOD]; omega
      have hofm : st.offset % UINT16_MOD = st.offset := by
        apply Nat.mod_eq_of_lt; simp only [UINT16_MOD]; omega
      obtain ⟨hrv, hge, hle, hdata⟩ :=
        hdev st.calls.length (min st.size_to_read L) st.offset (by omega) (by omega)
      set resp := env.Tss2_Sys_NV_Read st.calls.length (min st.size_to_read L) st.offset
        with hresp
      obtain ⟨buf', hcpy, hlen', htake'⟩ :=
        memcpy_ok st.data_buffer st.data_offset resp.data (by omega)
      have hs : (st.size_to_read + UINT32_MOD - resp.data.length) % UINT32_MOD
          = st.size_to_read - resp.data.length := by
        have : st.size_to_read + UINT32_MOD - resp.data.length
            = (st.size_to_read - resp.data.length) + UINT32_MOD := by
          simp only [UINT32_MOD]; omega
        rw [this, Nat.add_mod_right]; apply Nat.mod_eq_of_lt; simp only [UINT32_MOD]; omega
      have ho : (st.offset + resp.data.length) % UINT32_MOD = st.offset + resp.data.length := by
        apply Nat.mod_eq_of_lt; simp only [UINT32_MOD]; omega
      have hd : (st.data_offset + resp.data.length) % UINT16_MOD
          = st.data_offset + resp.data.length := by
        apply Nat.mod_eq_of_lt; simp only [UINT16_MOD]; omega
      obtain ⟨st', hrun, hz, hoff', hdo', hbl', hbt', new, hcalls, hch⟩ :=
        ih { size_to_read := st.size_to_read - resp.data.length
             offset := st.offset + resp.data.length
             data_offset := st.data_offset + resp.data.length
             data_buffer := buf'
             calls := st.calls ++ [{ size := min st.size_to_read L, offset := st.offset,
                                     resp := resp }] }
          (by simp only; omega) (by simp only; omega) (by simp only; omega)
          (by simp only; omega)
      simp only at hz hoff' hdo' hbl' hbt' hcalls hch
      refine ⟨st', ?_, hz, by omega, by omega, by omega, ?_,
        { size := min st.size_to_read L, offset := st.offset, resp := resp } :: new, ?_, ?_⟩
      · rw [nv_read_loop]
        simp only [h0, if_false, hreq, hofm, ← hresp, hrv, ne_eq, not_true_eq_false, hcpy,
          hs, ho, hd]
        exact hrun
      · rw [hbt', htake', List.append_assoc]
        congr 1
        have hkr : resp.data.length ≤ st.size_to_read := by omega
        have := take_drop_split B st.offset resp.data.length st.size_to_read hkr
        rw [← hdata] at this
        exact this
      · rw [hcalls]; simp
      · rw [Chunked]
        refine ⟨by omega, rfl, rfl, hresp, hrv, hge, hle, ?_⟩
        simpa using hch

/-- An in-range request reaches the loop: `nv_read` is its loop, started at
the requested offset with the effective length, followed by the sink call. -/
theorem nv_read_of_loop (env : NvEnv) (ctx : tpm_nvread_ctx) (quiet : Bool) (fuel : Nat)
    (fresh : Nat → Nat)
    (hpub : env.nv_public_rval = TPM2_RC_SUCCESS) (hsz : env.dataSize < 65536)
    (hrange : ctx.offset + effective_length env.dataSize ctx ≤ env.dataSize)
    (hmax : env.max_buffer_rval = TPM2_RC_SUCCESS) (hmalloc : env.malloc = some fresh) :
    nv_read env ctx quiet fuel =
      match nv_read_loop env (transfer_limit env) fuel
          { size_to_read := effective_length env.dataSize ctx, offset := ctx.offset
            data_offset := 0, data_buffer := (List.range env.dataSize).map fresh
            calls := [] } with
      | .outOfFuel => .outOfFuel
      | .bufferOverflow _ => .bufferOverflow
      | .failed st =>
        .returned { result := false
                    ctx := { ctx with size_to_read := st.size_to_read, offset := st.offset }
                    sink := none, calls := st.calls }
      | .done st =>
        .returned { result := (expected_sink ctx quiet []).isNone || env.sink_ok
                    ctx := { ctx with size_to_read := st.size_to_read, offset := st.offset }
                    sink := expected_sink ctx quiet (st.data_buffer.take st.data_offset)
                    calls := st.calls } := by
  have h1 : ¬ ctx.offset > env.dataSize := by omega
  have h2 : ¬ (ctx.offset + effective_length env.dataSize ctx) % UINT32_MOD > env.dataSize := by
    rw [Nat.mod_eq_of_lt (by simp only [UINT32_MOD]; omega)]; omega
  unfold nv_read
  simp only [hpub, hmax, hmalloc, ne_eq, not_true_eq_false, if_false]
  unfold effective_length at h1 h2 ⊢
  unfold transfer_limit
  by_cases hz : ctx.size_to_read = 0
  · simp only [hz, if_true] at h1 h2 ⊢
    simp only [h1, h2, if_false]
    generalize nv_read_loop env _ fuel _ = e
    cases e <;> cases hf : ctx.output_file <;> cases quiet <;> simp [expected_sink, hf]
  · simp only [hz, if_false] at h1 h2 ⊢
    simp only [h1, h2, if_false]
    generalize nv_read_loop env _ fuel _ = e
    cases e <;> cases hf : ctx.output_file <;> cases quiet <;> simp [expected_sink, hf]


theorem idealDevice_short (B : List Nat) : ShortReadDevice B (idealDevice B) := by
  intro n size off h1 h2
  simp only [idealDevice, List.length_take, List.length_drop]
  refine ⟨trivial, by omega, by omega, ?_⟩
  congr 1
  omega

theorem chunked_bytes_returned (dev : Nat → Nat → Nat → NvResponse) (L : Nat) :
    ∀ (cs : List NvCall) (n off rem : Nat), Chunked dev L n off rem cs →
      bytes_returned cs = rem := by
  intro cs
  induction cs with
  | nil => intro n off rem h; simpa [Chunked, bytes_returned] using h.symm
  | cons c cs ih =>
    intro n off rem h
    rw [Chunked] at h
    obtain ⟨_, hsz, _, _, _, _, hle, hrest⟩ := h
    have := ih _ _ _ hrest
    simp only [bytes_returned, List.map_cons, List.sum_cons] at this ⊢
    omega

theorem chunked_at_index (dev : Nat → Nat → Nat → NvResponse) (L : Nat) :
    ∀ (cs : List NvCall) (n off rem : Nat), Chunked dev L n off rem cs →
      ∀ j (h : j < cs.length), bytes_returned (cs.take j) < rem ∧
        cs[j].offset = off + bytes_returned (cs.take j) ∧
        cs[j].size = min (rem - bytes_returned (cs.take j)) L ∧
        cs[j].resp = dev (n + j) cs[j].size cs[j].offset ∧
        cs[j].resp.rval = TPM2_RC_SUCCESS ∧
        1 ≤ cs[j].resp.data.length ∧ cs[j].resp.data.length ≤ cs[j].size := by
  intro cs
  induction cs with
  | nil => intro n off rem _ j h; simp at h
  | cons c cs ih =>
    intro n off rem hc j h
    rw [Chunked] at hc
    obtain ⟨hpos, hsz, hoff, hresp, hrv, hge, hle, hrest⟩ := hc
    cases j with
    | zero =>
      simp only [List.take_zero, bytes_returned, List.map_nil, List.sum_nil,
        List.getElem_cons_zero, Nat.add_zero, Nat.sub_zero]
      exact ⟨hpos, hoff, hsz, hresp, hrv, hge, hle⟩
    | succ j =>
      have hj : j < cs.length := by simpa using h
      obtain ⟨h1, h2, h3, h4, h5, h6, h7⟩ := ih _ _ _ hrest j hj
      simp only [bytes_returned, List.take_succ_cons, List.map_cons, List.sum_cons,
        List.getElem_cons_succ] at h1 h2 h3 h4 ⊢
      refine ⟨by omega, by omega, ?_, ?_, h5, h6, h7⟩
      · rw [h3]; congr 1; omega
      · rw [h4]; congr 1; omega

theorem chunked_ideal_length (B : List Nat) (L : Nat) (hL : 0 < L) :
    ∀ (cs : List NvCall) (n off rem : Nat), Chunked (idealDevice B) L n off rem cs →
      off + rem ≤ B.length → cs.length = (rem + L - 1) / L := by
  intro cs
  induction cs with
  | nil =>
    intro n off rem h _
    rw [Chunked] at h
    subst h
    simp only [List.length_nil, Nat.zero_add]
    exact (Nat.div_eq_of_lt (by omega)).symm
  | cons c cs ih =>
    intro n off rem hc hin
    rw [Chunked] at hc
    obtain ⟨hpos, hsz, hoff, hresp, _, _, hle, hrest⟩ := hc
    have hlen : c.resp.data.length = min rem L := by
      rw [hresp]
      simp only [idealDevice, List.length_take, List.length_drop]
      omega
    have := ih _ _ _ hrest (by omega)
    rw [List.length_cons, this, hlen]
    by_cases hr : rem ≤ L
    · rw [Nat.min_eq_left hr, Nat.sub_self, Nat.zero_add, Nat.div_eq_of_lt (by omega)]
      have : rem + L - 1 = (rem - 1) + L := by omega
      rw [this, Nat.add_div_right _ hL, Nat.div_eq_of_lt (by omega)]
    · rw [Nat.min_eq_right (by omega)]
      have : rem + L - 1 = (rem - L + L - 1) + L := by omega
      rw [this, Nat.add_div_right _ hL]

theorem nv_read_run_short (env : NvEnv) (ctx : tpm_nvread_ctx) (quiet : Bool)
    (B : List Nat) (fuel : Nat)
    (hpub : env.nv_public_rval = TPM2_RC_SUCCESS) (hsize : env.dataSize = B.length)
    (hB : B.length < 65536) (hmax : env.max_buffer_rval = TPM2_RC_SUCCESS)
    (hL : 0 < transfer_limit env) (hmalloc : env.malloc ≠ none)
    (hdev : ShortReadDevice B env.Tss2_Sys_NV_Read)
    (hrange : ctx.offset + effective_length B.length ctx ≤ B.length)
    (hfuel : effective_length B.length ctx ≤ fuel) :
    ∃ r, nv_read env ctx quiet fuel = .returned r ∧
      r.result = ((expected_sink ctx quiet []).isNone || env.sink_ok) ∧
      r.ctx.size_to_read = 0 ∧
      r.ctx.offset = ctx.offset + effective_length B.length ctx ∧
      r.sink = expected_sink ctx quiet
        ((B.drop ctx.offset).take (effective_length B.length ctx)) ∧
      Chunked env.Tss2_Sys_NV_Read (transfer_limit env) 0 ctx.offset
        (effective_length B.length ctx) r.calls := by
  obtain ⟨fresh, hfresh⟩ := Option.ne_none_iff_exists'.mp hmalloc
  have hrun := nv_read_of_loop env ctx quiet fuel fresh hpub (by omega)
    (by rw [hsize]; exact hrange) hmax hfresh
  obtain ⟨st', hloop, hz, hoff, _, _, hbuf, new, hcalls, hch⟩ :=
    nv_read_loop_short env (transfer_limit env) B hdev hL hB fuel
      { size_to_read := effective_length env.dataSize ctx, offset := ctx.offset
        data_offset := 0, data_buffer := (List.range env.dataSize).map fresh
        calls := [] }
      (by simp only [hsize]; exact hfuel) (by simp only [hsize]; exact hrange)
      (by simp only [hsize, List.length_map, List.length_range]; omega)
      (by simp only [hsize, List.length_map, List.length_range]; omega)
  rw [hloop] at hrun
  simp only [List.take_zero, List.nil_append, List.length_nil, hsize] at hbuf hcalls hch hoff
  refine ⟨_, hrun, rfl, hz, hoff, ?_, ?_⟩
  · simp only [hbuf]
  · simp only [hcalls]; exact hch


theorem nv_read_loop_failure (env : NvEnv) (L k : Nat)
    (hconf : ∀ n size off, n < k → (env.Tss2_Sys_NV_Read n size off).rval = TPM2_RC_SUCCESS →
      (env.Tss2_Sys_NV_Read n size off).data.length ≤ size)
    (hfail : ∀ size off, (env.Tss2_Sys_NV_Read k size off).rval ≠ TPM2_RC_SUCCESS) :
    ∀ (fuel : Nat) (st : LoopState), k < fuel + st.calls.length → st.calls.length ≤ k →
      st.data_offset + st.size_to_read ≤ st.data_buffer.length →
      st.data_buffer.length < 65536 →
      (∀ c ∈ st.calls, c.resp.rval = TPM2_RC_SUCCESS) →
      (∃ st', nv_read_loop env L fuel st = .done st' ∧ st'.calls.length ≤ k ∧
          ∀ c ∈ st'.calls, c.resp.rval = TPM2_RC_SUCCESS) ∨
      (∃ st', nv_read_loop env L fuel st = .failed st' ∧ st'.calls.length ≤ k + 1) := by
  intro fuel
  induction fuel with
  | zero => intro st h1 h2; omega
  | succ fuel ih =>
    intro st hk hlen hbuf hsz hok
    by_cases h0 : st.size_to_read = 0
    · exact Or.inl ⟨st, by simp [nv_read_loop, h0], hlen, hok⟩
    · rw [nv_read_loop]
      simp only [h0, if_false]
      set req := (if st.size_to_read > L then L else st.size_to_read) % UINT16_MOD with hreq
      set resp := env.Tss2_Sys_NV_Read st.calls.length req (st.offset % UINT16_MOD) with hresp
      have hreq_le : req ≤ st.size_to_read := by
        have : (if st.size_to_read > L then L else st.size_to_read) ≤ st.size_to_read := by
          split <;> omega
        exact le_trans (Nat.mod_le _ _) this
      by_cases hrv : resp.rval = TPM2_RC_SUCCESS
      · have hlt : st.calls.length < k := by
          rcases Nat.lt_or_ge st.calls.length k with h | h
          · exact h
          · have : st.calls.length = k := by omega
            exact absurd hrv (by rw [hresp, this]; exact hfail _ _)
        have hdl : resp.data.length ≤ req := hconf _ _ _ hlt hrv
        have hcpy : memcpy st.data_buffer st.data_offset resp.data =
            some (st.data_buffer.take st.data_offset ++ resp.data ++
              st.data_buffer.drop (st.data_offset + resp.data.length)) := by
          simp only [memcpy]; rw [if_pos (by omega)]
        simp only [hrv, ne_eq, not_true_eq_false, if_false, hcpy]
        have hs : (st.size_to_read + UINT32_MOD - resp.data.length) % UINT32_MOD
            = st.size_to_read - resp.data.length := by
          have : st.size_to_read + UINT32_MOD - resp.data.length
              = (st.size_to_read - resp.data.length) + UINT32_MOD := by
            simp only [UINT32_MOD]; omega
          rw [this, Nat.add_mod_right]; apply Nat.mod_eq_of_lt; simp only [UINT32_MOD]; omega
        have hd : (st.data_offset + resp.data.length) % UINT16_MOD
            = st.data_offset + resp.data.length := by
          apply Nat.mod_eq_of_lt; simp only [UINT16_MOD]; omega
        rw [hs, hd]
        apply ih
        · simp only [List.length_append, List.length_singleton]; omega
        · simp only [List.length_append, List.length_singleton]; omega
        · simp only [List.length_append, List.length_take, List.length_drop]; omega
        · simp only [List.length_append, List.length_take, List.length_drop]; omega
        · intro c hc
          rcases List.mem_append.mp hc with h | h
          · exact hok c h
          · rw [List.mem_singleton.mp h]; exact hrv
      · simp only [hrv, ne_eq, not_false_eq_true, if_true]
        refine Or.inr ⟨_, rfl, ?_⟩
        simp only [List.length_append, List.length_singleton]; omega


theorem stutterDevice_short (B : List Nat) : ShortReadDevice B (stutterDevice B) := by
  intro n size off h1 h2
  simp only [stutterDevice, List.length_take, List.length_drop]
  refine ⟨trivial, ?_, ?_, ?_⟩
  · split <;> omega
  · split <;> omega
  · congr 1
    split <;> omega

/-- When the sum of offset and effective length exceeds the declared size
without wrapping around 32 bits, `nv_read` returns false and issues no
transaction. -/
theorem nv_read_rejects_out_of_range (env : NvEnv) (ctx : tpm_nvread_ctx) (quiet : Bool)
    (fuel : Nat) (hpub : env.nv_public_rval = TPM2_RC_SUCCESS)
    (hover : env.dataSize < ctx.offset + effective_length env.dataSize ctx)
    (hnowrap : ctx.offset + effective_length env.dataSize ctx < 4294967296) :
    ∃ r, nv_read env ctx quiet fuel = .returned r ∧ r.result = false ∧ r.calls = [] ∧
      r.sink = none := by
  unfold nv_read
  simp only [hpub, ne_eq, not_true_eq_false, if_false]
  unfold effective_length at hover hnowrap
  have hm : ∀ x, x < 4294967296 → x % UINT32_MOD = x := fun x hx => Nat.mod_eq_of_lt hx
  by_cases hz : ctx.size_to_read = 0
  · simp only [hz, if_true] at hover hnowrap ⊢
    by_cases h1 : ctx.offset > env.dataSize
    · simp only [h1, if_true]
      exact ⟨_, rfl, rfl, rfl, rfl⟩
    · simp only [h1, if_false, hm _ hnowrap, gt_iff_lt, hover, if_true]
      exact ⟨_, rfl, rfl, rfl, rfl⟩
  · simp only [hz, if_false] at hover hnowrap ⊢
    by_cases h1 : ctx.offset > env.dataSize
    · simp only [h1, if_true]
      exact ⟨_, rfl, rfl, rfl, rfl⟩
    · simp only [h1, if_false, hm _ hnowrap, gt_iff_lt, hover, if_true]
      exact ⟨_, rfl, rfl, rfl, rfl⟩

theorem nvExampleContent_length : nvExampleContent.length = 100 := by
  simp [nvExampleContent]

theorem nv_read_loop_wrapping_example (fuel : Nat) (buf : List Nat) :
    nv_read_loop (nvExampleEnv (strictDevice nvExampleContent) 1024) 1024 (fuel + 1)
        { size_to_read := 4294967246, offset := 50, data_offset := 0, data_buffer := buf
          calls := [] } =
      .failed { size_to_read := 4294967246, offset := 50, data_offset := 0, data_buffer := buf
                calls := [{ size := 1024, offset := 50
                            resp := { rval := 0x146, data := [] } }] } :=
  rfl

/-- C1 (evaluation at the failing input): with declared size 100, offset 50 and
requested length 4294967246 the true sum is 2^32, far above the declared size,
but the 32-bit sum is 0, so `nv_read` passes its range check and issues a
transaction of 1024 bytes at offset 50, which a module that checks the range
refuses. -/
theorem nv_read_wrapping_sum_reaches_module (fuel : Nat) :
    nv_read (nvExampleEnv (strictDevice nvExampleContent) 1024)
        { size_to_read := 4294967246, offset := 50, output_file := none } false (fuel + 1) =
      .returned { result := false
                  ctx := { size_to_read := 4294967246, offset := 50, output_file := none }
                  sink := none
                  calls := [{ size := 1024, offset := 50
                              resp := { rval := 0x146, data := [] } }] } := by
  have h := nv_read_loop_wrapping_example fuel ((List.range 100).map fun _ => 0)
  unfold nv_read
  simp only [nvExampleEnv, TPM2_RC_SUCCESS, ne_eq, not_true_eq_false, if_false]
  have e1 : ¬ (4294967246 = 0) := by decide
  have e2 : ¬ (50 > 100) := by decide
  have e3 : ¬ ((50 + 4294967246) % UINT32_MOD > 100) := by decide
  have e4 : ¬ (1024 > 2048) := by decide
  simp only [e1, e2, e3, e4, if_false]
  simp only [nvExampleEnv, TPM2_RC_SUCCESS] at h
  rw [h]

/-- C2: for every byte array `B` held by an index (so shorter than 2^16) and
every transfer limit `L > 0` (the reported limit clamped to the protocol
maximum), against a module that returns all `min(remaining, L)` bytes asked
for, `nv_read` of the whole index from offset 0 returns true, hands exactly
`B` to the sink and issues `ceil(len(B)/L)` transactions. -/
theorem nv_read_whole_index_reassembles (env : NvEnv) (ctx : tpm_nvread_ctx) (quiet : Bool)
    (B : List Nat) (fuel : Nat)
    (hpub : env.nv_public_rval = TPM2_RC_SUCCESS) (hsize : env.dataSize = B.length)
    (hB : B.length < 65536) (hmax : env.max_buffer_rval = TPM2_RC_SUCCESS)
    (hL : 0 < transfer_limit env) (hmalloc : env.malloc ≠ none)
    (hdev : env.Tss2_Sys_NV_Read = idealDevice B) (hsink : env.sink_ok = true)
    (hoff : ctx.offset = 0) (hreq : ctx.size_to_read = 0 ∨ ctx.size_to_read = B.length)
    (hfuel : B.length ≤ fuel) :
    ∃ r, nv_read env ctx quiet fuel = .returned r ∧ r.result = true ∧
      r.sink = expected_sink ctx quiet B ∧
      r.calls.length = (B.length + transfer_limit env - 1) / transfer_limit env := by
  have heff : effective_length B.length ctx = B.length := by
    unfold effective_length; split <;> omega
  obtain ⟨r, hr, hres, _, _, hsk, hch⟩ :=
    nv_read_run_short env ctx quiet B fuel hpub hsize hB hmax hL hmalloc
      (by rw [hdev]; exact idealDevice_short B) (by omega) (by omega)
  rw [heff, hoff] at hsk hch
  refine ⟨r, hr, by rw [hres, hsink, Bool.or_true], ?_, ?_⟩
  · rw [hsk, List.drop_zero, List.take_of_length_le (le_refl _)]
  · rw [hdev] at hch
    exact chunked_ideal_length B _ hL _ _ _ _ hch (by omega)

theorem nv_read_whole_index_reassembles_witness :
    ∃ r, nv_read (nvExampleEnv (idealDevice nvExampleContent) 32)
        { size_to_read := 0, offset := 0, output_file := none } false 100 = .returned r ∧
      r.result = true ∧ r.sink = some (.stdout, nvExampleContent) ∧ r.calls.length = 4 :=
  nv_read_whole_index_reassembles (nvExampleEnv (idealDevice nvExampleContent) 32)
    { size_to_read := 0, offset := 0, output_file := none } false nvExampleContent 100
    rfl (by simp [nvExampleEnv, nvExampleContent]) (by simp [nvExampleContent]) rfl
    (by decide) (by simp [nvExampleEnv]) rfl rfl rfl (Or.inl rfl)
    (by simp [nvExampleContent])

/-- With declared size 100, offset 90 and requested length 0, whatever the
module, the transfer limit and the quiet flag, `nv_read` takes the whole
declared size as the length, finds 90 + 100 above the declared size, and
returns false without issuing any transaction or calling a sink. -/
theorem nv_read_zero_length_at_offset_fails (dev : Nat → Nat → Nat → NvResponse)
    (limit : Nat) (quiet : Bool) (fuel : Nat) :
    nv_read (nvExampleEnv dev limit)
        { size_to_read := 0, offset := 90, output_file := none } quiet fuel =
      .returned { result := false
                  ctx := { size_to_read := 10, offset := 90, output_file := none }
                  sink := none, calls := [] } := by
  have e1 : ¬ (90 > 100) := by decide
  have e2 : (90 + 100) % UINT32_MOD > 100 := by decide
  have e3 : (100 + UINT32_MOD - 90) % UINT32_MOD = 10 := by decide
  unfold nv_read
  simp only [nvExampleEnv, TPM2_RC_SUCCESS, ne_eq, not_true_eq_false, if_false, if_true,
    e1, e2, e3]

/-- C3 (counterexample): with declared size 100, offset 90 and requested
length 0, against a module that returns every byte asked for and a transfer
limit of 1024, `nv_read` returns false and issues no transaction; it does not
succeed with one transaction of 10 bytes. -/
theorem nv_read_zero_length_counterexample :
    nv_read (nvExampleEnv (idealDevice nvExampleContent) 1024)
        { size_to_read := 0, offset := 90, output_file := none } false 100 =
      .returned { result := false
                  ctx := { size_to_read := 10, offset := 90, output_file := none }
                  sink := none, calls := [] } ∧
    ¬ ∃ r, nv_read (nvExampleEnv (idealDevice nvExampleContent) 1024)
        { size_to_read := 0, offset := 90, output_file := none } false 100 = .returned r ∧
      r.result = true ∧ r.calls.length = 1 := by
  have h := nv_read_zero_length_at_offset_fails (idealDevice nvExampleContent) 1024 false 100
  refine ⟨h, ?_⟩
  rintro ⟨r, hr, hres, _⟩
  rw [h] at hr
  injection hr with hr
  rw [← hr] at hres
  exact Bool.noConfusion hres

/-- C3 (amended): for every declared size and every offset not greater than
it, `nv_read` with requested length 0 takes the whole declared size as the
effective length ("assume the whole object").  With an offset above 0 the sum
of offset and effective length exceeds the declared size, and `nv_read`
returns false with zero transactions and no sink call.  With offset 0 the
effective length is the declared size minus the offset, and against a module
that returns at least one and at most the bytes asked for, with a transfer
limit above 0 and a sink that accepts the bytes, the read succeeds and hands
all bytes of the index to the sink. -/
theorem nv_read_zero_length_whole_object (env : NvEnv) (ctx : tpm_nvread_ctx) (quiet : Bool)
    (B : List Nat) (fuel : Nat)
    (hpub : env.nv_public_rval = TPM2_RC_SUCCESS) (hsize : env.dataSize = B.length)
    (hB : B.length < 65536) (hreq : ctx.size_to_read = 0) (hoff : ctx.offset ≤ B.length) :
    effective_length env.dataSize ctx = env.dataSize ∧
    (0 < ctx.offset →
      ∃ r, nv_read env ctx quiet fuel = .returned r ∧ r.result = false ∧ r.calls = [] ∧
        r.sink = none) ∧
    (ctx.offset = 0 → env.max_buffer_rval = TPM2_RC_SUCCESS → 0 < transfer_limit env →
      env.malloc ≠ none → ShortReadDevice B env.Tss2_Sys_NV_Read → env.sink_ok = true →
      B.length ≤ fuel →
      effective_length env.dataSize ctx = env.dataSize - ctx.offset ∧
      ∃ r, nv_read env ctx quiet fuel = .returned r ∧ r.result = true ∧
        r.sink = expected_sink ctx quiet B ∧ bytes_returned r.calls = B.length) := by
  have heff : effective_length env.dataSize ctx = env.dataSize := by
    unfold effective_length; rw [if_pos hreq]
  refine ⟨heff, fun hpos => ?_, fun h0 hmax hL hmalloc hdev hsink hfuel => ⟨?_, ?_⟩⟩
  · exact nv_read_rejects_out_of_range env ctx quiet fuel hpub (by rw [heff]; omega)
      (by rw [heff]; omega)
  · rw [heff, h0, Nat.sub_zero]
  · have heffB : effective_length B.length ctx = B.length := by
      rw [← hsize]; exact heff
    obtain ⟨r, hr, hres, _, _, hsk, hch⟩ :=
      nv_read_run_short env ctx quiet B fuel hpub hsize hB hmax hL hmalloc hdev
        (by rw [heffB, h0]; omega) (by rw [heffB]; exact hfuel)
    rw [heffB, h0] at hsk hch
    refine ⟨r, hr, by rw [hres, hsink, Bool.or_true], ?_, ?_⟩
    · rw [hsk, List.drop_zero, List.take_of_length_le (le_refl _)]
    · exact chunked_bytes_returned _ _ _ _ _ _ hch

theorem nv_read_zero_length_whole_object_witness :
    (∃ r, nv_read (nvExampleEnv (idealDevice nvExampleContent) 1024)
        { size_to_read := 0, offset := 90, output_file := none } false 100 = .returned r ∧
      r.result = false ∧ r.calls = [] ∧ r.sink = none) ∧
    (effective_length (nvExampleEnv (idealDevice nvExampleContent) 1024).dataSize
        { size_to_read := 0, offset := 0, output_file := none } =
      (nvExampleEnv (idealDevice nvExampleContent) 1024).dataSize - 0 ∧
      ∃ r, nv_read (nvExampleEnv (idealDevice nvExampleContent) 1024)
        { size_to_read := 0, offset := 0, output_file := none } false 100 = .returned r ∧
      r.result = true ∧ r.sink = some (.stdout, nvExampleContent) ∧
      bytes_returned r.calls = nvExampleContent.length) :=
  ⟨(nv_read_zero_length_whole_object (nvExampleEnv (idealDevice nvExampleContent) 1024)
      { size_to_read := 0, offset := 90, output_file := none } false nvExampleContent 100
      rfl (by simp [nvExampleEnv, nvExampleContent]) (by simp [nvExampleContent]) rfl
      (by simp [nvExampleContent])).2.1 (by decide),
    (nv_read_zero_length_whole_object (nvExampleEnv (idealDevice nvExampleContent) 1024)
      { size_to_read := 0, offset := 0, output_file := none } false nvExampleContent 100
      rfl (by simp [nvExampleEnv, nvExampleContent]) (by simp [nvExampleContent]) rfl
      (by simp [nvExampleContent])).2.2 rfl rfl (by decide) (by simp [nvExampleEnv])
      (idealDevice_short nvExampleContent) rfl (by simp [nvExampleContent])⟩

/-- C4: for every in-range request, if transaction number `k` of the module
returns a status other than success (the earlier ones returning at most the
bytes asked for), `nv_read` returns after at most `k + 1` transactions;
whenever one of the transactions it issued failed, and so whenever it got as
far as transaction `k`, it returns false and calls no sink, however many
transactions succeeded before. -/
theorem nv_read_failed_transaction_discards (env : NvEnv) (ctx : tpm_nvread_ctx)
    (quiet : Bool) (fuel k : Nat)
    (hpub : env.nv_public_rval = TPM2_RC_SUCCESS) (hsz : env.dataSize < 65536)
    (hrange : ctx.offset + effective_length env.dataSize ctx ≤ env.dataSize)
    (hmax : env.max_buffer_rval = TPM2_RC_SUCCESS) (hmalloc : env.malloc ≠ none)
    (hconf : ∀ n size off, n < k →
      (env.Tss2_Sys_NV_Read n size off).rval = TPM2_RC_SUCCESS →
      (env.Tss2_Sys_NV_Read n size off).data.length ≤ size)
    (hfail : ∀ size off, (env.Tss2_Sys_NV_Read k size off).rval ≠ TPM2_RC_SUCCESS)
    (hfuel : k < fuel) :
    ∃ r, nv_read env ctx quiet fuel = .returned r ∧ r.calls.length ≤ k + 1 ∧
      ((∃ c ∈ r.calls, c.resp.rval ≠ TPM2_RC_SUCCESS) → r.result = false ∧ r.sink = none) ∧
      (r.calls.length = k + 1 → r.result = false ∧ r.sink = none) := by
  obtain ⟨fresh, hfresh⟩ := Option.ne_none_iff_exists'.mp hmalloc
  have hrun := nv_read_of_loop env ctx quiet fuel fresh hpub hsz hrange hmax hfresh
  rcases nv_read_loop_failure env (transfer_limit env) k hconf hfail fuel
      { size_to_read := effective_length env.dataSize ctx, offset := ctx.offset
        data_offset := 0, data_buffer := (List.range env.dataSize).map fresh
        calls := [] }
      (by simp only [List.length_nil]; omega) (by simp only [List.length_nil]; omega)
      (by simp only [List.length_map, List.length_range]; omega)
      (by simp only [List.length_map, List.length_range]; omega)
      (by intro c hc; simp at hc) with ⟨st', hloop, hlen, hall⟩ | ⟨st', hloop, hlen⟩
  · rw [hloop] at hrun
    refine ⟨_, hrun, by simp only; omega, ?_, ?_⟩
    · rintro ⟨c, hc, hne⟩
      exact absurd (hall c hc) hne
    · intro h
      simp only at h
      omega
  · rw [hloop] at hrun
    exact ⟨_, hrun, hlen, fun _ => ⟨rfl, rfl⟩, fun _ => ⟨rfl, rfl⟩⟩

theorem nv_read_failed_transaction_discards_witness :
    (∃ r, nv_read (nvExampleEnv (failingDevice nvExampleContent 2) 32)
        { size_to_read := 90, offset := 10, output_file := some "nv.bin" } false 3
          = .returned r ∧ r.calls.length ≤ 2 + 1 ∧
      ((∃ c ∈ r.calls, c.resp.rval ≠ TPM2_RC_SUCCESS) → r.result = false ∧ r.sink = none) ∧
      (r.calls.length = 2 + 1 → r.result = false ∧ r.sink = none)) ∧
    nv_read (nvExampleEnv (failingDevice nvExampleContent 2) 32)
        { size_to_read := 90, offset := 10, output_file := some "nv.bin" } false 3
      = .returned
          { result := false
            ctx := { size_to_read := 26, offset := 74, output_file := some "nv.bin" }
            sink := none
            calls := [
              { size := 32, offset := 10
                resp := { rval := 0, data := (List.range 32).map (· + 11) } },
              { size := 32, offset := 42
                resp := { rval := 0, data := (List.range 32).map (· + 43) } },
              { size := 26, offset := 74, resp := { rval := 0x101, data := [] } }] } :=
  ⟨nv_read_failed_transaction_discards (nvExampleEnv (failingDevice nvExampleContent 2) 32)
    { size_to_read := 90, offset := 10, output_file := some "nv.bin" } false 3 2
    rfl (by decide) (by decide) rfl (by simp [nvExampleEnv])
    (by
      intro n size off hn _
      simp only [nvExampleEnv, failingDevice, hn, if_true, List.length_take]
      omega)
    (by intro size off; simp [nvExampleEnv, failingDevice, TPM2_RC_SUCCESS])
    (by decide), by decide⟩

/-- C5: for every in-range request and every module that answers each
transaction with between 1 and the requested number of bytes of the index
content, the loop of `nv_read` runs until the requested length is exhausted
and no further (the bytes returned add up to the effective length, every
transaction is issued while some are still outstanding, and `ctx.size_to_read`
ends at 0), transaction `j` is issued at the original offset plus the bytes
returned by the transactions before it, and the bytes handed to the sink are
the index content from offset to offset + effective length. -/
theorem nv_read_short_transactions (env : NvEnv) (ctx : tpm_nvread_ctx) (quiet : Bool)
    (B : List Nat) (fuel : Nat)
    (hpub : env.nv_public_rval = TPM2_RC_SUCCESS) (hsize : env.dataSize = B.length)
    (hB : B.length < 65536) (hmax : env.max_buffer_rval = TPM2_RC_SUCCESS)
    (hL : 0 < transfer_limit env) (hmalloc : env.malloc ≠ none)
    (hdev : ShortReadDevice B env.Tss2_Sys_NV_Read)
    (hrange : ctx.offset + effective_length B.length ctx ≤ B.length)
    (hfuel : effective_length B.length ctx ≤ fuel) :
    ∃ r, nv_read env ctx quiet fuel = .returned r ∧
      r.ctx.size_to_read = 0 ∧
      bytes_returned r.calls = effective_length B.length ctx ∧
      (∀ j, j < r.calls.length →
        bytes_returned (r.calls.take j) < effective_length B.length ctx) ∧
      (∀ j (h : j < r.calls.length),
        r.calls[j].offset = ctx.offset + bytes_returned (r.calls.take j)) ∧
      r.sink = expected_sink ctx quiet
        ((B.drop ctx.offset).take (effective_length B.length ctx)) := by
  obtain ⟨r, hr, _, hz, _, hsk, hch⟩ :=
    nv_read_run_short env ctx quiet B fuel hpub hsize hB hmax hL hmalloc hdev hrange hfuel
  refine ⟨r, hr, hz, chunked_bytes_returned _ _ _ _ _ _ hch, ?_, ?_, hsk⟩
  · intro j hj
    exact (chunked_at_index _ _ _ _ _ _ hch j hj).1
  · intro j hj
    exact (chunked_at_index _ _ _ _ _ _ hch j hj).2.1

theorem nv_read_short_transactions_witness :
    ∃ r, nv_read (nvExampleEnv (stutterDevice nvExampleContent) 4)
        { size_to_read := 10, offset := 90, output_file := none } false 10 = .returned r ∧
      r.ctx.size_to_read = 0 ∧
      bytes_returned r.calls = 10 ∧
      (∀ j, j < r.calls.length → bytes_returned (r.calls.take j) < 10) ∧
      (∀ j (h : j < r.calls.length),
        r.calls[j].offset = 90 + bytes_returned (r.calls.take j)) ∧
      r.sink = some (.stdout, [91, 92, 93, 94, 95, 96, 97, 98, 99, 100]) :=
  nv_read_short_transactions (nvExampleEnv (stutterDevice nvExampleContent) 4)
    { size_to_read := 10, offset := 90, output_file := none } false nvExampleContent 10
    rfl (by simp [nvExampleEnv, nvExampleContent]) (by simp [nvExampleContent]) rfl
    (by decide) (by simp [nvExampleEnv])
    (stutterDevice_short nvExampleContent)
    (by simp [nvExampleContent, effective_length]) (by simp [effective_length])

/-! ## Theorems: lib/object.c -/

/-- C6: for every reference string that `fopen` opens, whatever the hierarchy
and handle parser would say about the same string, `tpm2_util_object_load`
sets the handle to `TPM2_TRANSIENT_FIRST` and the path to the reference string,
returns what the context deserializer returns, and makes exactly three outside
calls, `fopen`, the deserializer and `fclose`: the parser is never called. -/
theorem object_load_prefers_file (env : ObjEnv) (ctx : Option Nat) (objectstr : String)
    (f : Nat) (outobject : tpm2_loaded_object) (hopen : env.fopen objectstr = some f) :
    (tpm2_util_object_load env ctx (some objectstr) outobject).outobject.handle
        = env.TPM2_TRANSIENT_FIRST ∧
      (tpm2_util_object_load env ctx (some objectstr) outobject).outobject.path
        = some objectstr ∧
      (tpm2_util_object_load env ctx (some objectstr) outobject).rc
        = (env.files_load_tpm_context_from_file ctx f).1 ∧
      (tpm2_util_object_load env ctx (some objectstr) outobject).trace
        = [.fopen objectstr, .load_tpm_context ctx f, .fclose f] ∧
      ∀ e ∈ (tpm2_util_object_load env ctx (some objectstr) outobject).trace,
        e.isHierarchyParse = false := by
  have h : tpm2_util_object_load env ctx (some objectstr) outobject =
      { rc := (env.files_load_tpm_context_from_file ctx f).1
        outobject := store_tr_handle
          { outobject with handle := env.TPM2_TRANSIENT_FIRST, path := some objectstr }
          (env.files_load_tpm_context_from_file ctx f).2
        trace := [.fopen objectstr, .load_tpm_context ctx f, .fclose f] } := by
    simp [tpm2_util_object_load, tpm2_util_object_load2, hopen, do_ctx_file]
  rw [h]
  refine ⟨?_, ?_, rfl, rfl, ?_⟩
  · cases (env.files_load_tpm_context_from_file ctx f).2 <;> rfl
  · cases (env.files_load_tpm_context_from_file ctx f).2 <;> rfl
  · intro e he
    simp only [List.mem_cons, List.mem_singleton, List.mem_nil_iff, or_false] at he
    rcases he with rfl | rfl | rfl <;> rfl

theorem object_load_prefers_file_witness :
    objExampleEnv.tpm2_hierarchy_from_optarg "0x81000001" = some 0x81000001 ∧
      (tpm2_util_object_load objExampleEnv (some 1) (some "0x81000001")
        objExampleObject).outobject.handle = 0x80000000 ∧
      (tpm2_util_object_load objExampleEnv (some 1) (some "0x81000001")
        objExampleObject).outobject.path = some "0x81000001" :=
  ⟨by decide,
    (object_load_prefers_file objExampleEnv (some 1) "0x81000001" 3 objExampleObject
      (by decide)).1,
    (object_load_prefers_file objExampleEnv (some 1) "0x81000001" 3 objExampleObject
      (by decide)).2.1⟩

/-- C7: for every reference string and auth string, when
`tpm2_auth_util_from_optarg` returns a status other than success,
`tpm2_util_object_load_auth` returns that status, leaves every field of the
output object as it was, and its only outside call is the session setup: no
file is opened and the handle parser is not called. -/
theorem object_load_auth_failure_leaves_object (env : ObjEnv) (ctx : Option Nat)
    (objectstr auth : Option String) (outobject : tpm2_loaded_object)
    (is_restricted_pswd_session : Bool)
    (hfail : (env.tpm2_auth_util_from_optarg
        (if is_restricted_pswd_session then none else ctx) auth
        is_restricted_pswd_session).1 ≠ .tool_rc_success) :
    (tpm2_util_object_load_auth env ctx objectstr auth outobject
        is_restricted_pswd_session).rc
      = (env.tpm2_auth_util_from_optarg (if is_restricted_pswd_session then none else ctx)
          auth is_restricted_pswd_session).1 ∧
    (tpm2_util_object_load_auth env ctx objectstr auth outobject
        is_restricted_pswd_session).outobject = outobject ∧
    (tpm2_util_object_load_auth env ctx objectstr auth outobject
        is_restricted_pswd_session).trace
      = [.auth_from_optarg (if is_restricted_pswd_session then none else ctx) auth
          is_restricted_pswd_session] ∧
    ∀ e ∈ (tpm2_util_object_load_auth env ctx objectstr auth outobject
        is_restricted_pswd_session).trace, e.isFopen = false ∧ e.isHierarchyParse = false := by
  have h : tpm2_util_object_load_auth env ctx objectstr auth outobject
        is_restricted_pswd_session =
      { rc := (env.tpm2_auth_util_from_optarg
          (if is_restricted_pswd_session then none else ctx) auth
          is_restricted_pswd_session).1
        outobject := outobject
        trace := [.auth_from_optarg (if is_restricted_pswd_session then none else ctx) auth
          is_restricted_pswd_session] } := by
    simp only [tpm2_util_object_load_auth, tpm2_util_object_load2, if_true, ne_eq, hfail,
      not_false_eq_true]
  rw [h]
  refine ⟨rfl, rfl, rfl, ?_⟩
  intro e he
  rw [List.mem_singleton.mp he]
  exact ⟨rfl, rfl⟩

theorem object_load_auth_failure_leaves_object_witness :
    (tpm2_util_object_load_auth objExampleEnv (some 1) (some "key.ctx")
        (some "file:missing") objExampleObject false).rc = .tool_rc_general_error ∧
      (tpm2_util_object_load_auth objExampleEnv (some 1) (some "key.ctx")
        (some "file:missing") objExampleObject false).outobject = objExampleObject :=
  ⟨(object_load_auth_failure_leaves_object objExampleEnv (some 1) (some "key.ctx")
      (some "file:missing") objExampleObject false (by decide)).1,
    (object_load_auth_failure_leaves_object objExampleEnv (some 1) (some "key.ctx")
      (some "file:missing") objExampleObject false (by decide)).2.1⟩

/-- C8: for every non-null reference string that `fopen` does not open and
that the hierarchy and handle parser rejects, `tpm2_util_object_load` returns
`tool_rc_general_error`, calls `LOG_ERR` exactly once, and leaves the output
object, in particular its handle, in-session handle and path, as it was. -/
theorem object_load_unresolved_reference (env : ObjEnv) (ctx : Option Nat)
    (objectstr : String) (outobject : tpm2_loaded_object)
    (hopen : env.fopen objectstr = none)
    (hparse : env.tpm2_hierarchy_from_optarg objectstr = none) :
    (tpm2_util_object_load env ctx (some objectstr) outobject).rc
        = .tool_rc_general_error ∧
      ((tpm2_util_object_load env ctx (some objectstr) outobject).trace.filter
        ObjEvent.isLogErr).length = 1 ∧
      (tpm2_util_object_load env ctx (some objectstr) outobject).outobject.handle
        = outobject.handle ∧
      (tpm2_util_object_load env ctx (some objectstr) outobject).outobject.tr_handle
        = outobject.tr_handle ∧
      (tpm2_util_object_load env ctx (some objectstr) outobject).outobject.path
        = outobject.path ∧
      (tpm2_util_object_load env ctx (some objectstr) outobject).outobject = outobject := by
  have h : tpm2_util_object_load env ctx (some objectstr) outobject =
      { rc := .tool_rc_general_error, outobject := outobject
        trace := [.fopen objectstr, .hierarchy_from_optarg objectstr,
          .log_err ("Cannot make sense of object context \"" ++ objectstr ++ "\"")] } := by
    simp [tpm2_util_object_load, tpm2_util_object_load2, hopen, hparse]
  rw [h]
  exact ⟨rfl, rfl, rfl, rfl, rfl, rfl⟩

theorem object_load_unresolved_reference_witness :
    (tpm2_util_object_load objExampleEnv (some 1) (some "no-such-thing")
        objExampleObject).rc = .tool_rc_general_error ∧
      (tpm2_util_object_load objExampleEnv (some 1) (some "no-such-thing")
        objExampleObject).outobject = objExampleObject :=
  ⟨(object_load_unresolved_reference objExampleEnv (some 1) "no-such-thing"
      objExampleObject (by decide) (by decide)).1,
    (object_load_unresolved_reference objExampleEnv (some 1) "no-such-thing"
      objExampleObject (by decide) (by decide)).2.2.2.2.2⟩

/-! ## Theorems: lib/tpm2_util.c -/

theorem char_le_iff (a b : Char) : a ≤ b ↔ a.toNat ≤ b.toNat := Iff.rfl

theorem isxdigit_mem (c : Char) (h : isxdigit c = true) : c ∈ hexChars := by
  have hc : c = Char.ofNat c.toNat := (Char.ofNat_toNat c).symm
  simp only [isxdigit, Bool.or_eq_true, Bool.and_eq_true, decide_eq_true_eq, char_le_iff] at h
  have e0 : ('0' : Char).toNat = 48 := rfl
  have e9 : ('9' : Char).toNat = 57 := rfl
  have ea : ('a' : Char).toNat = 97 := rfl
  have ef : ('f' : Char).toNat = 102 := rfl
  have eA : ('A' : Char).toNat = 65 := rfl
  have eF : ('F' : Char).toNat = 70 := rfl
  rw [e0, e9, ea, ef, eA, eF] at h
  generalize c.toNat = n at h hc
  subst hc
  rcases h with (⟨h1, h2⟩ | ⟨h1, h2⟩) | ⟨h1, h2⟩ <;> interval_cases n <;> decide

set_option maxRecDepth 100000 in
theorem hex_pair_facts : ∀ c0 ∈ hexChars, ∀ c1 ∈ hexChars,
    (strtol16 ([c0, c1].takeWhile (· ≠ Char.ofNat 0)) % 256).toNat
        = 16 * hexDigitValue c0 + hexDigitValue c1 ∧
      nibble_to_char (((16 * hexDigitValue c0 + hexDigitValue c1) &&& 0xF0) >>> 4)
        = c0.toUpper ∧
      nibble_to_char ((16 * hexDigitValue c0 + hexDigitValue c1) &&& 0x0F) = c1.toUpper := by
  decide


theorem size_t_to_int_small (n : Nat) (h : n < 2147483648) : size_t_to_int n = (n : Int) := by
  have hm : n % UINT32_MOD = n := Nat.mod_eq_of_lt (by simp only [UINT32_MOD]; omega)
  simp only [size_t_to_int, hm, h, if_true]

theorem int_tmod_two (n : Nat) : (n : Int).tmod 2 = ((n % 2 : Nat) : Int) := by
  rw [Int.ofNat_tmod]; rfl

theorem int_tdiv_two (n : Nat) : (n : Int).tdiv 2 = ((n / 2 : Nat) : Int) := by
  rw [Int.ofNat_tdiv]; rfl

/-- The function on strings shorter than 2^31 characters, in natural numbers. -/
theorem hex_to_byte_structure_eq (s : List Char) (cap : Nat) (buf : List Nat)
    (hs : s.length < 2147483648) (hcap : cap < 65536) :
    tpm2_util_hex_to_byte_structure s cap buf =
      if s.length % 2 ≠ 0 then { rc := -2, byteLength := cap, byteBuffer := buf }
      else if !s.all isxdigit then { rc := -3, byteLength := cap, byteBuffer := buf }
      else if cap < s.length / 2 then { rc := -4, byteLength := cap, byteBuffer := buf }
      else { rc := 0, byteLength := s.length / 2
             byteBuffer := (List.range (s.length / 2)).foldl
               (fun b i => b.set i (hex_byte_at s i)) buf } := by
  unfold tpm2_util_hex_to_byte_structure
  simp only [size_t_to_int_small _ hs, int_tmod_two, int_tdiv_two, Int.toNat_ofNat,
    List.take_length]
  by_cases h1 : s.length % 2 = 0
  · simp only [h1, Nat.cast_zero, ne_eq, not_true_eq_false, if_false]
    by_cases h2 : s.all isxdigit = true
    · simp only [h2, Bool.not_true, Bool.false_eq_true, if_false]
      by_cases h3 : cap < s.length / 2
      · have h3' : (cap : Int) < ((s.length / 2 : Nat) : Int) := by exact_mod_cast h3
        simp only [h3, h3', if_true]
      · have h3' : ¬ (cap : Int) < ((s.length / 2 : Nat) : Int) := by
          intro h; exact h3 (by exact_mod_cast h)
        have h4 : (((s.length / 2 : Nat) : Int) % 65536).toNat = s.length / 2 := by
          have : ((s.length / 2 : Nat) : Int) % 65536 = ((s.length / 2 % 65536 : Nat) : Int) := by
            norm_cast
          rw [this, Int.toNat_ofNat]
          exact Nat.mod_eq_of_lt (by omega)
        simp only [h3, h3', if_false, h4]
    · have h2' : s.all isxdigit = false := by
        cases h : s.all isxdigit
        · rfl
        · exact absurd h h2
      simp only [h2', Bool.not_false, if_true]
  · have h1' : ((s.length % 2 : Nat) : Int) ≠ 0 := by
      intro h; exact h1 (by exact_mod_cast h)
    simp only [h1', h1, ne_eq, not_false_eq_true, if_true]

theorem decode_loop (f : Nat → Nat) :
    ∀ (n : Nat) (buf : List Nat), n ≤ buf.length →
      (List.range n).foldl (fun b i => b.set i (f i)) buf
        = (List.range n).map f ++ buf.drop n := by
  intro n
  induction n with
  | zero => intro buf _; simp
  | succ n ih =>
    intro buf h
    rw [List.range_succ, List.foldl_append, ih buf (by omega)]
    simp only [List.foldl_cons, List.foldl_nil, List.map_append, List.map_cons, List.map_nil]
    rw [List.set_append_right _ _ (by simp)]
    simp only [List.length_map, List.length_range, Nat.sub_self]
    rw [List.drop_eq_getElem_cons (by omega : n < buf.length), List.set_cons_zero]
    simp


theorem hex_byte_at_cons (a b : Char) (t : List Char) (i : Nat) :
    hex_byte_at (a :: b :: t) (i + 1) = hex_byte_at t i := by
  have e1 : (i + 1) * 2 = i * 2 + 1 + 1 := by omega
  have e2 : (i + 1) * 2 + 1 = (i * 2 + 1) + 1 + 1 := by omega
  simp only [hex_byte_at, e1, e2, List.getD_cons_succ]

theorem hex_byte_at_zero (a b : Char) (t : List Char) (ha : isxdigit a = true)
    (hb : isxdigit b = true) :
    hex_byte_at (a :: b :: t) 0 = 16 * hexDigitValue a + hexDigitValue b :=
  (hex_pair_facts a (isxdigit_mem a ha) b (isxdigit_mem b hb)).1

/-- The byte decoded at index `i` of a string of hex digits. -/
theorem hex_byte_at_eq (s : List Char) (hhex : ∀ c ∈ s, isxdigit c = true) :
    ∀ i, i * 2 + 1 < s.length →
      hex_byte_at s i = 16 * hexDigitValue (s.getD (i * 2) (Char.ofNat 0))
        + hexDigitValue (s.getD (i * 2 + 1) (Char.ofNat 0)) := by
  intro i hi
  have h0 : s.getD (i * 2) (Char.ofNat 0) ∈ s := by
    rw [List.getD_eq_getElem _ _ (by omega)]; exact List.getElem_mem _
  have h1 : s.getD (i * 2 + 1) (Char.ofNat 0) ∈ s := by
    rw [List.getD_eq_getElem _ _ (by omega)]; exact List.getElem_mem _
  exact (hex_pair_facts _ (isxdigit_mem _ (hhex _ h0)) _ (isxdigit_mem _ (hhex _ h1))).1

theorem to_hex_loop_take (g : Nat → List Char) :
    ∀ (n : Nat) (bytes : List Nat), n ≤ bytes.length →
      (List.range n).flatMap (fun i => g (bytes.getD i 0)) = (bytes.take n).flatMap g := by
  intro n
  induction n with
  | zero => intro bytes _; simp
  | succ n ih =>
    intro bytes h
    cases bytes with
    | nil => simp at h
    | cons b bs =>
      rw [List.range_succ_eq_map, List.flatMap_cons, List.flatMap_map, List.take_succ_cons,
        List.flatMap_cons]
      simp only [List.getD_cons_zero, Function.comp_def, Nat.succ_eq_add_one,
        List.getD_cons_succ]
      rw [ih bs (by simpa using h)]

theorem encode_pairs :
    ∀ (n : Nat) (s : List Char), s.length = 2 * n → (∀ c ∈ s, isxdigit c = true) →
      (List.range n).flatMap (fun i =>
          [nibble_to_char ((hex_byte_at s i &&& 0xF0) >>> 4),
           nibble_to_char (hex_byte_at s i &&& 0x0F)])
        = s.map Char.toUpper := by
  intro n
  induction n with
  | zero =>
    intro s h _
    have : s = [] := List.length_eq_zero.mp (by omega)
    simp [this]
  | succ n ih =>
    intro s h hhex
    match s, h, hhex with
    | a :: b :: t, h, hhex =>
      have ha : isxdigit a = true := hhex a (by simp)
      have hb : isxdigit b = true := hhex b (by simp)
      have ht : ∀ c ∈ t, isxdigit c = true := fun c hc => hhex c (by simp [hc])
      have hf := hex_pair_facts a (isxdigit_mem a ha) b (isxdigit_mem b hb)
      rw [List.range_succ_eq_map, List.flatMap_cons, List.flatMap_map]
      simp only [Function.comp_def, Nat.succ_eq_add_one, hex_byte_at_cons,
        hex_byte_at_zero a b t ha hb]
      rw [ih t (by simp at h; omega) ht, hf.2.1, hf.2.2]
      simp


/-- C9 (counterexample): decoding "ab" and encoding the byte gives "0xAB",
which is neither "AB" nor "ab": the encoder puts the prefix "0x" in front. -/
theorem hex_roundtrip_counterexample :
    tpm2_util_to_hex true (tpm2_util_hex_to_byte_structure ['a', 'b'] 1 [0]).byteBuffer
        (tpm2_util_hex_to_byte_structure ['a', 'b'] 1 [0]).byteLength
      = some ['0', 'x', 'A', 'B'] ∧
    tpm2_util_to_hex true (tpm2_util_hex_to_byte_structure ['a', 'b'] 1 [0]).byteBuffer
        (tpm2_util_hex_to_byte_structure ['a', 'b'] 1 [0]).byteLength
      ≠ some (['a', 'b'].map Char.toUpper) ∧
    tpm2_util_to_hex true (tpm2_util_hex_to_byte_structure ['a', 'b'] 1 [0]).byteBuffer
        (tpm2_util_hex_to_byte_structure ['a', 'b'] 1 [0]).byteLength
      ≠ some (['a', 'b'].map Char.toLower) := by
  decide

/-- C9 (amended): for every even-length string `s` of hex digits whose byte
count fits the destination capacity, `tpm2_util_hex_to_byte_structure` returns
0 and `tpm2_util_to_hex` of the decoded bytes is the prefix "0x" followed by
`s` in upper case. -/
theorem hex_decode_encode_roundtrip (s : List Char) (cap : Nat) (buf : List Nat)
    (hs : s.length < 2147483648) (hcap : cap < 65536) (hbuf : cap ≤ buf.length)
    (heven : s.length % 2 = 0) (hhex : ∀ c ∈ s, isxdigit c = true)
    (hfit : s.length / 2 ≤ cap) :
    (tpm2_util_hex_to_byte_structure s cap buf).rc = 0 ∧
    tpm2_util_to_hex true (tpm2_util_hex_to_byte_structure s cap buf).byteBuffer
        (tpm2_util_hex_to_byte_structure s cap buf).byteLength
      = some ('0' :: 'x' :: s.map Char.toUpper) := by
  have hall : s.all isxdigit = true := List.all_eq_true.mpr hhex
  have hnot : ¬ cap < s.length / 2 := by omega
  rw [hex_to_byte_structure_eq s cap buf hs hcap]
  simp only [heven, ne_eq, not_true_eq_false, if_false, hall, Bool.not_true,
    Bool.false_eq_true, hnot]
  refine ⟨trivial, ?_⟩
  rw [decode_loop _ _ _ (by omega)]
  simp only [tpm2_util_to_hex, Bool.not_true, Bool.false_eq_true, if_false]
  rw [to_hex_loop_take
    (fun b => [nibble_to_char ((b &&& 0xF0) >>> 4), nibble_to_char (b &&& 0x0F)])
    _ _ (by simp)]
  rw [List.take_left' (by simp), List.flatMap_map]
  have := encode_pairs (s.length / 2) s (by omega) hhex
  simp only [Function.comp_def, this]

theorem hex_decode_encode_roundtrip_witness :
    (tpm2_util_hex_to_byte_structure ['0', 'a', 'F', 'f', '1', '0'] 5 [9, 9, 9, 9, 9]).rc = 0 ∧
    tpm2_util_to_hex true
        (tpm2_util_hex_to_byte_structure ['0', 'a', 'F', 'f', '1', '0'] 5
          [9, 9, 9, 9, 9]).byteBuffer
        (tpm2_util_hex_to_byte_structure ['0', 'a', 'F', 'f', '1', '0'] 5
          [9, 9, 9, 9, 9]).byteLength
      = some ('0' :: 'x' :: ['0', 'a', 'F', 'f', '1', '0'].map Char.toUpper) :=
  hex_decode_encode_roundtrip ['0', 'a', 'F', 'f', '1', '0'] 5 [9, 9, 9, 9, 9]
    (by decide) (by decide) (by decide) (by decide) (by decide) (by decide)

/-- C10: for every input string (shorter than 2^31 characters) and every
destination capacity, `tpm2_util_hex_to_byte_structure` returns -2 exactly
when the length is odd, -3 exactly when the length is even and some character
is not a hex digit, -4 exactly when the string is valid and the capacity is
below length/2, and 0 exactly in the remaining case; on 0 the reported length
is length/2, byte `i` is `16 * value(s[2i]) + value(s[2i+1])` and the bytes
past length/2 are untouched; on a non-zero return the reported length and the
destination are unchanged. -/
theorem hex_to_byte_structure_codes (s : List Char) (cap : Nat) (buf : List Nat)
    (hs : s.length < 2147483648) (hcap : cap < 65536) (hbuf : cap ≤ buf.length) :
    ((tpm2_util_hex_to_byte_structure s cap buf).rc = -2 ↔ s.length % 2 = 1) ∧
    ((tpm2_util_hex_to_byte_structure s cap buf).rc = -3 ↔
      s.length % 2 = 0 ∧ ∃ c ∈ s, isxdigit c = false) ∧
    ((tpm2_util_hex_to_byte_structure s cap buf).rc = -4 ↔
      s.length % 2 = 0 ∧ (∀ c ∈ s, isxdigit c = true) ∧ cap < s.length / 2) ∧
    ((tpm2_util_hex_to_byte_structure s cap buf).rc = 0 ↔
      s.length % 2 = 0 ∧ (∀ c ∈ s, isxdigit c = true) ∧ s.length / 2 ≤ cap) ∧
    ((tpm2_util_hex_to_byte_structure s cap buf).rc = 0 →
      (tpm2_util_hex_to_byte_structure s cap buf).byteLength = s.length / 2 ∧
      (∀ i, i < s.length / 2 →
        (tpm2_util_hex_to_byte_structure s cap buf).byteBuffer[i]? =
          some (16 * hexDigitValue (s.getD (i * 2) (Char.ofNat 0))
            + hexDigitValue (s.getD (i * 2 + 1) (Char.ofNat 0)))) ∧
      (tpm2_util_hex_to_byte_structure s cap buf).byteBuffer.drop (s.length / 2)
        = buf.drop (s.length / 2)) ∧
    ((tpm2_util_hex_to_byte_structure s cap buf).rc ≠ 0 →
      (tpm2_util_hex_to_byte_structure s cap buf).byteLength = cap ∧
      (tpm2_util_hex_to_byte_structure s cap buf).byteBuffer = buf) := by
  by_cases h1 : s.length % 2 = 0
  · have h1' : ¬ s.length % 2 = 1 := by omega
    by_cases h2 : s.all isxdigit = true
    · have hhex : ∀ c ∈ s, isxdigit c = true := List.all_eq_true.mp h2
      have hno : ¬ ∃ c ∈ s, isxdigit c = false := by
        rintro ⟨c, hc, hx⟩
        rw [hhex c hc] at hx
        exact Bool.noConfusion hx
      by_cases h3 : cap < s.length / 2
      · have hval : tpm2_util_hex_to_byte_structure s cap buf
            = { rc := -4, byteLength := cap, byteBuffer := buf } := by
          rw [hex_to_byte_structure_eq s cap buf hs hcap]
          simp only [h1, ne_eq, not_true_eq_false, if_false, h2, Bool.not_true,
            Bool.false_eq_true, h3, if_true]
        rw [hval]
        exact ⟨iff_of_false (by simp) h1', iff_of_false (by simp) (fun h => hno h.2),
          iff_of_true rfl ⟨h1, hhex, h3⟩,
          iff_of_false (by simp) (fun h => absurd h.2.2 (by omega)),
          fun h => absurd h (by simp), fun _ => ⟨rfl, rfl⟩⟩
      · have hval : tpm2_util_hex_to_byte_structure s cap buf
            = { rc := 0, byteLength := s.length / 2
                byteBuffer := (List.range (s.length / 2)).map (hex_byte_at s)
                  ++ buf.drop (s.length / 2) } := by
          rw [hex_to_byte_structure_eq s cap buf hs hcap]
          simp only [h1, ne_eq, not_true_eq_false, if_false, h2, Bool.not_true,
            Bool.false_eq_true, h3]
          rw [decode_loop _ _ _ (by omega)]
        rw [hval]
        refine ⟨iff_of_false (by simp) h1', iff_of_false (by simp) (fun h => hno h.2),
          iff_of_false (by simp) (fun h => h3 h.2.2),
          iff_of_true rfl ⟨h1, hhex, by omega⟩, fun _ => ⟨rfl, ?_, ?_⟩,
          fun h => absurd rfl h⟩
        · intro i hi
          show ((List.range (s.length / 2)).map (hex_byte_at s)
            ++ buf.drop (s.length / 2))[i]? = _
          rw [List.getElem?_append_left (by simpa using hi), List.getElem?_map,
            List.getElem?_range hi, Option.map_some',
            hex_byte_at_eq s hhex i (by omega)]
        · show ((List.range (s.length / 2)).map (hex_byte_at s)
            ++ buf.drop (s.length / 2)).drop (s.length / 2) = _
          rw [List.drop_left' (by simp)]
    · have h2' : s.all isxdigit = false := by
        cases h : s.all isxdigit
        · rfl
        · exact absurd h h2
      have hex : ∃ c ∈ s, isxdigit c = false := by
        obtain ⟨c, hc, hx⟩ := List.all_eq_false.mp h2'
        exact ⟨c, hc, by simpa using hx⟩
      have hnall : ¬ ∀ c ∈ s, isxdigit c = true := by
        intro h
        obtain ⟨c, hc, hx⟩ := hex
        rw [h c hc] at hx
        exact Bool.noConfusion hx
      have hval : tpm2_util_hex_to_byte_structure s cap buf
          = { rc := -3, byteLength := cap, byteBuffer := buf } := by
        rw [hex_to_byte_structure_eq s cap buf hs hcap]
        simp only [h1, ne_eq, not_true_eq_false, if_false, h2', Bool.not_false, if_true]
      rw [hval]
      exact ⟨iff_of_false (by simp) h1', iff_of_true rfl ⟨h1, hex⟩,
        iff_of_false (by simp) (fun h => hnall h.2.1),
        iff_of_false (by simp) (fun h => hnall h.2.1),
        fun h => absurd h (by simp), fun _ => ⟨rfl, rfl⟩⟩
  · have h1' : s.length % 2 = 1 := by omega
    have hval : tpm2_util_hex_to_byte_structure s cap buf
        = { rc := -2, byteLength := cap, byteBuffer := buf } := by
      rw [hex_to_byte_structure_eq s cap buf hs hcap]
      simp only [h1, ne_eq, not_false_eq_true, if_true]
    rw [hval]
    exact ⟨iff_of_true rfl h1', iff_of_false (by simp) (fun h => h1 h.1),
      iff_of_false (by simp) (fun h => h1 h.1),
      iff_of_false (by simp) (fun h => h1 h.1),
      fun h => absurd h (by simp), fun _ => ⟨rfl, rfl⟩⟩

theorem hex_to_byte_structure_codes_witness :
    (['0', 'a', 'F', 'f', '1', '0'].length < 2147483648 ∧ 5 < 65536 ∧
        5 ≤ [9, 9, 9, 9, 9].length) ∧
      (tpm2_util_hex_to_byte_structure ['0', 'a', 'F', 'f', '1', '0'] 5
        [9, 9, 9, 9, 9]).byteLength = 3 :=
  ⟨⟨by decide, by decide, by decide⟩,
    ((hex_to_byte_structure_codes ['0', 'a', 'F', 'f', '1', '0'] 5 [9, 9, 9, 9, 9]
      (by decide) (by decide) (by decide)).2.2.2.2.1 (by decide)).1⟩

/-! ## Theorems: transcripts of the read loop of tools/tpm2_nvread.c -/

/-- The read loop against a module that returns at most the bytes asked for,
from a state whose remaining length fits the declared size: it never leaves
the destination block, and the transactions it issues form an `Issued`
transcript; with a positive limit and a module that makes progress it ends
within `size_to_read` iterations. -/
theorem nv_read_loop_conforming (env : NvEnv) (L : Nat)
    (hconf : AtMostRequested env.Tss2_Sys_NV_Read) :
    ∀ (fuel : Nat) (st : LoopState),
      st.offset + st.size_to_read < 65536 →
      st.data_offset + st.size_to_read ≤ st.data_buffer.length →
      st.data_buffer.length < 65536 →
      match nv_read_loop env L fuel st with
      | .done st' =>
        ∃ new, st'.calls = st.calls ++ new ∧
          Issued env.Tss2_Sys_NV_Read L st.data_buffer.length st.calls.length st.offset
            st.size_to_read st.data_offset new ∧
          (∀ c ∈ new, c.resp.rval = TPM2_RC_SUCCESS) ∧
          bytes_returned new = st.size_to_read ∧
          st'.size_to_read = 0 ∧
          st'.data_offset = st.data_offset + st.size_to_read ∧
          st'.data_buffer.length = st.data_buffer.length
      | .failed st' =>
        ∃ new, st'.calls = st.calls ++ new ∧
          Issued env.Tss2_Sys_NV_Read L st.data_buffer.length st.calls.length st.offset
            st.size_to_read st.data_offset new
      | .bufferOverflow _ => False
      | .outOfFuel =>
        ¬ (0 < L ∧ MakesProgress env.Tss2_Sys_NV_Read ∧ st.size_to_read ≤ fuel) := by
  intro fuel
  induction fuel with
  | zero =>
    intro st _ _ _
    by_cases h0 : st.size_to_read = 0
    · simp only [nv_read_loop, h0, if_true]
      refine ⟨[], ?_⟩
      simp [Issued, bytes_returned]
    · simp only [nv_read_loop, h0, if_false]
      rintro ⟨_, _, h⟩
      omega
  | succ fuel ih =>
    intro st hoff hbuf hsz
    by_cases h0 : st.size_to_read = 0
    · simp only [nv_read_loop, h0, if_true]
      refine ⟨[], ?_⟩
      simp [Issued, bytes_returned]
    · have hreq : (if st.size_to_read > L then L else st.size_to_read) % UINT16_MOD
          = min st.size_to_read L := by
        have : (if st.size_to_read > L then L else st.size_to_read) = min st.size_to_read L := by
          split <;> omega
        rw [this]; apply Nat.mod_eq_of_lt; simp only [UINT16_MOD]; omega
      have hofm : st.offset % UINT16_MOD = st.offset := by
        apply Nat.mod_eq_of_lt; simp only [UINT16_MOD]; omega
      rw [nv_read_loop]
      simp only [h0, if_false, hreq, hofm]
      set resp := env.Tss2_Sys_NV_Read st.calls.length (min st.size_to_read L) st.offset
        with hresp
      by_cases hrv : resp.rval = TPM2_RC_SUCCESS
      · have hdl : resp.data.length ≤ min st.size_to_read L := hconf _ _ _ hrv
        obtain ⟨buf', hcpy, hlen', _⟩ :=
          memcpy_ok st.data_buffer st.data_offset resp.data (by omega)
        have hs : (st.size_to_read + UINT32_MOD - resp.data.length) % UINT32_MOD
            = st.size_to_read - resp.data.length := by
          have : st.size_to_read + UINT32_MOD - resp.data.length
              = (st.size_to_read - resp.data.length) + UINT32_MOD := by
            simp only [UINT32_MOD]; omega
          rw [this, Nat.add_mod_right]; apply Nat.mod_eq_of_lt; simp only [UINT32_MOD]; omega
        have ho : (st.offset + resp.data.length) % UINT32_MOD
            = st.offset + resp.data.length := by
          apply Nat.mod_eq_of_lt; simp only [UINT32_MOD]; omega
        have hd : (st.data_offset + resp.data.length) % UINT16_MOD
            = st.data_offset + resp.data.length := by
          apply Nat.mod_eq_of_lt; simp only [UINT16_MOD]; omega
        simp only [hrv, ne_eq, not_true_eq_false, if_false, hcpy, hs, ho, hd]
        have := ih { size_to_read := st.size_to_read - resp.data.length
                     offset := st.offset + resp.data.length
                     data_offset := st.data_offset + resp.data.length
                     data_buffer := buf'
                     calls := st.calls ++ [{ size := min st.size_to_read L, offset := st.offset,
                                             resp := resp }] }
          (by simp only; omega) (by simp only; omega) (by simp only; omega)
        revert this
        generalize nv_read_loop env L fuel _ = e
        cases e with
        | done st' =>
          intro h
          simp only [hlen', List.length_append, List.length_singleton] at h
          obtain ⟨new, hcalls, hiss, hall, hbr, hz, hdo, hbl⟩ := h
          simp only
          refine ⟨{ size := min st.size_to_read L, offset := st.offset, resp := resp } :: new,
            by rw [hcalls]; simp, ?_, ?_, ?_, hz, by omega, hbl⟩
          · rw [Issued]
            exact ⟨by omega, rfl, rfl, hresp,
              fun _ => ⟨(by show resp.data.length ≤ st.size_to_read; omega),
                (by show st.data_offset + resp.data.length ≤ st.data_buffer.length; omega),
                hiss⟩,
              fun h => absurd hrv h⟩
          · intro c hc
            rcases List.mem_cons.mp hc with rfl | hc
            · exact hrv
            · exact hall c hc
          · simp only [bytes_returned, List.map_cons, List.sum_cons] at hbr ⊢
            omega
        | failed st' =>
          intro h
          simp only [hlen', List.length_append, List.length_singleton] at h
          obtain ⟨new, hcalls, hiss⟩ := h
          simp only
          refine ⟨{ size := min st.size_to_read L, offset := st.offset, resp := resp } :: new,
            by rw [hcalls]; simp, ?_⟩
          rw [Issued]
          exact ⟨by omega, rfl, rfl, hresp,
            fun _ => ⟨(by show resp.data.length ≤ st.size_to_read; omega),
              (by show st.data_offset + resp.data.length ≤ st.data_buffer.length; omega),
              hiss⟩,
            fun h => absurd hrv h⟩
        | bufferOverflow st' => exact id
        | outOfFuel =>
          simp only
          intro hno ⟨hL, hprog, hfuel⟩
          have h1 : 1 ≤ resp.data.length := hprog _ _ _ (by omega) hrv
          exact hno ⟨hL, hprog, by omega⟩
      · simp only [hrv, ne_eq, not_false_eq_true, if_true]
        refine ⟨[{ size := min st.size_to_read L, offset := st.offset, resp := resp }], rfl, ?_⟩
        rw [Issued]
        exact ⟨by omega, rfl, rfl, hresp, fun h => absurd h hrv, fun _ => rfl⟩


theorem issued_at_index (dev : Nat → Nat → Nat → NvResponse) (L cap : Nat) :
    ∀ (cs : List NvCall) (n off rem doff : Nat), Issued dev L cap n off rem doff cs →
      ∀ j (h : j < cs.length),
        bytes_returned (cs.take j) < rem ∧
        cs[j].size = min (rem - bytes_returned (cs.take j)) L ∧
        cs[j].offset = off + bytes_returned (cs.take j) ∧
        cs[j].resp = dev (n + j) cs[j].size cs[j].offset ∧
        (cs[j].resp.rval = TPM2_RC_SUCCESS →
          bytes_returned (cs.take j) + cs[j].resp.data.length ≤ rem ∧
          doff + bytes_returned (cs.take j) + cs[j].resp.data.length ≤ cap) := by
  intro cs
  induction cs with
  | nil => intro n off rem doff _ j h; simp at h
  | cons c cs ih =>
    intro n off rem doff hc j h
    rw [Issued] at hc
    obtain ⟨hpos, hsz, hoff, hresp, hok, hbad⟩ := hc
    cases j with
    | zero =>
      simp only [List.take_zero, bytes_returned, List.map_nil, List.sum_nil,
        List.getElem_cons_zero, Nat.add_zero, Nat.sub_zero]
      refine ⟨hpos, hsz, hoff, hresp, fun hs => ?_⟩
      obtain ⟨h1, h2, _⟩ := hok hs
      omega
    | succ j =>
      have hj : j < cs.length := by simpa using h
      have hs : c.resp.rval = TPM2_RC_SUCCESS := by
        by_contra hne
        rw [hbad hne] at hj
        simp at hj
      obtain ⟨hle, hcap, hrest⟩ := hok hs
      obtain ⟨h1, h2, h3, h4, h5⟩ := ih _ _ _ _ hrest j hj
      simp only [bytes_returned, List.take_succ_cons, List.map_cons, List.sum_cons,
        List.getElem_cons_succ] at h1 h2 h3 h4 h5 ⊢
      refine ⟨by omega, ?_, by omega, ?_, fun hs' => ?_⟩
      · rw [h2]; congr 1; omega
      · rw [h4]; congr 1; omega
      · have := h5 hs'
        omega

theorem transfer_limit_eq_min (env : NvEnv) :
    transfer_limit env = min env.max_data_size env.TPM2_MAX_NV_BUFFER_SIZE := by
  unfold transfer_limit
  split <;> omega

/-- An in-range request against a module that returns at most the bytes asked
for: `nv_read` never leaves the destination block; when it returns, its
transactions form an `Issued` transcript, and on success the sink receives
exactly the effective length; it does return when the limit is positive and
the module makes progress. -/
theorem nv_read_run_conforming (env : NvEnv) (ctx : tpm_nvread_ctx) (quiet : Bool)
    (fuel : Nat)
    (hpub : env.nv_public_rval = TPM2_RC_SUCCESS) (hsz : env.dataSize < 65536)
    (hrange : ctx.offset + effective_length env.dataSize ctx ≤ env.dataSize)
    (hmax : env.max_buffer_rval = TPM2_RC_SUCCESS) (hmalloc : env.malloc ≠ none)
    (hconf : AtMostRequested env.Tss2_Sys_NV_Read) :
    nv_read env ctx quiet fuel ≠ .bufferOverflow ∧
    (∀ r, nv_read env ctx quiet fuel = .returned r →
      Issued env.Tss2_Sys_NV_Read (transfer_limit env) env.dataSize 0 ctx.offset
        (effective_length env.dataSize ctx) 0 r.calls ∧
      (r.result = true → ∀ t d, r.sink = some (t, d) →
        d.length = effective_length env.dataSize ctx)) ∧
    (0 < transfer_limit env → MakesProgress env.Tss2_Sys_NV_Read →
      effective_length env.dataSize ctx ≤ fuel →
      ∃ r, nv_read env ctx quiet fuel = .returned r) := by
  obtain ⟨fresh, hfresh⟩ := Option.ne_none_iff_exists'.mp hmalloc
  have hrun := nv_read_of_loop env ctx quiet fuel fresh hpub hsz hrange hmax hfresh
  have hloop := nv_read_loop_conforming env (transfer_limit env) hconf fuel
      { size_to_read := effective_length env.dataSize ctx, offset := ctx.offset
        data_offset := 0, data_buffer := (List.range env.dataSize).map fresh
        calls := [] }
      (by simp only; omega)
      (by simp only [List.length_map, List.length_range]; omega)
      (by simp only [List.length_map, List.length_range]; omega)
  revert hrun hloop
  generalize nv_read_loop env (transfer_limit env) fuel _ = e
  cases e with
  | done st' =>
    intro hrun hloop
    simp only [List.length_map, List.length_range, List.nil_append, List.length_nil,
      Nat.zero_add] at hloop hrun
    obtain ⟨new, hcalls, hiss, _, _, _, hdo, hbl⟩ := hloop
    rw [hrun]
    refine ⟨by simp, ?_, fun _ _ _ => ⟨_, rfl⟩⟩
    intro r hr
    cases hr
    simp only
    refine ⟨by rw [hcalls]; exact hiss, ?_⟩
    intro _ t d hsink
    have hlen : (st'.data_buffer.take st'.data_offset).length
        = effective_length env.dataSize ctx := by
      rw [List.length_take, hdo, hbl]; omega
    unfold expected_sink at hsink
    cases hf : ctx.output_file with
    | some path =>
      simp only [hf, Option.some.injEq, Prod.mk.injEq] at hsink
      rw [← hsink.2]; exact hlen
    | none =>
      cases quiet with
      | true => simp [hf] at hsink
      | false =>
        simp only [hf, Bool.false_eq_true, if_false, Option.some.injEq, Prod.mk.injEq] at hsink
        rw [← hsink.2]; exact hlen
  | failed st' =>
    intro hrun hloop
    simp only [List.length_map, List.length_range, List.nil_append, List.length_nil] at hloop hrun
    obtain ⟨new, hcalls, hiss⟩ := hloop
    rw [hrun]
    refine ⟨by simp, ?_, fun _ _ _ => ⟨_, rfl⟩⟩
    intro r hr
    cases hr
    simp only
    exact ⟨by rw [hcalls]; exact hiss, fun h => Bool.noConfusion h⟩
  | bufferOverflow st' =>
    intro _ hloop
    exact absurd hloop id
  | outOfFuel =>
    intro hrun hloop
    simp only at hloop hrun
    rw [hrun]
    refine ⟨by simp, fun r hr => (by cases hr), fun hL hprog hfuel => ?_⟩
    exact absurd ⟨hL, hprog, hfuel⟩ hloop

/-- C14: for every in-range read request and every transfer limit the module
reports, against a module that returns at most the bytes asked for, every
transaction `nv_read` issues asks for exactly
`min(remaining, min(reported limit, TPM2_MAX_NV_BUFFER_SIZE))` bytes at the
current offset (the original offset plus the bytes returned so far), which is
never more than `TPM2_MAX_NV_BUFFER_SIZE`; `nv_read` returns when the limit is
positive and the module makes progress. -/
theorem nv_read_request_sizes (env : NvEnv) (ctx : tpm_nvread_ctx) (quiet : Bool)
    (fuel : Nat)
    (hpub : env.nv_public_rval = TPM2_RC_SUCCESS) (hsz : env.dataSize < 65536)
    (hrange : ctx.offset + effective_length env.dataSize ctx ≤ env.dataSize)
    (hmax : env.max_buffer_rval = TPM2_RC_SUCCESS) (hmalloc : env.malloc ≠ none)
    (hconf : AtMostRequested env.Tss2_Sys_NV_Read) :
    (∀ r, nv_read env ctx quiet fuel = .returned r →
      ∀ j (h : j < r.calls.length),
        r.calls[j].size
          = min (effective_length env.dataSize ctx - bytes_returned (r.calls.take j))
              (min env.max_data_size env.TPM2_MAX_NV_BUFFER_SIZE) ∧
        r.calls[j].offset = ctx.offset + bytes_returned (r.calls.take j) ∧
        r.calls[j].size ≤ env.TPM2_MAX_NV_BUFFER_SIZE) ∧
    (0 < min env.max_data_size env.TPM2_MAX_NV_BUFFER_SIZE →
      MakesProgress env.Tss2_Sys_NV_Read →
      effective_length env.dataSize ctx ≤ fuel →
      ∃ r, nv_read env ctx quiet fuel = .returned r) := by
  obtain ⟨_, hret, hterm⟩ :=
    nv_read_run_conforming env ctx quiet fuel hpub hsz hrange hmax hmalloc hconf
  rw [transfer_limit_eq_min] at hterm
  refine ⟨?_, hterm⟩
  intro r hr j hj
  obtain ⟨hiss, _⟩ := hret r hr
  obtain ⟨_, h2, h3, _, _⟩ := issued_at_index _ _ _ _ _ _ _ _ hiss j hj
  rw [transfer_limit_eq_min] at h2
  refine ⟨h2, h3, ?_⟩
  rw [h2]
  omega

/-- For an in-range request and a module that returns at most the bytes asked
for, every copy of `nv_read` stays inside the allocated block and no counter
wraps: the running destination offset plus the bytes returned never exceeds
the effective length, which is at most the declared size; on success the sink
receives exactly the effective length. -/
theorem nv_read_copies_in_bounds (env : NvEnv) (ctx : tpm_nvread_ctx) (quiet : Bool)
    (fuel : Nat)
    (hpub : env.nv_public_rval = TPM2_RC_SUCCESS) (hsz : env.dataSize < 65536)
    (hrange : ctx.offset + effective_length env.dataSize ctx ≤ env.dataSize)
    (hmax : env.max_buffer_rval = TPM2_RC_SUCCESS) (hmalloc : env.malloc ≠ none)
    (hconf : AtMostRequested env.Tss2_Sys_NV_Read) :
    nv_read env ctx quiet fuel ≠ .bufferOverflow ∧
    (∀ r, nv_read env ctx quiet fuel = .returned r →
      (∀ j (h : j < r.calls.length), r.calls[j].resp.rval = TPM2_RC_SUCCESS →
        bytes_returned (r.calls.take j) + r.calls[j].resp.data.length
          ≤ effective_length env.dataSize ctx ∧
        bytes_returned (r.calls.take j) + r.calls[j].resp.data.length ≤ env.dataSize) ∧
      (r.result = true → ∀ t d, r.sink = some (t, d) →
        d.length = effective_length env.dataSize ctx)) := by
  obtain ⟨hno, hret, _⟩ :=
    nv_read_run_conforming env ctx quiet fuel hpub hsz hrange hmax hmalloc hconf
  refine ⟨hno, fun r hr => ⟨?_, (hret r hr).2⟩⟩
  intro j hj hs
  obtain ⟨_, _, _, _, h5⟩ := issued_at_index _ _ _ _ _ _ _ _ (hret r hr).1 j hj
  have := h5 hs
  omega

set_option maxRecDepth 100000 in
theorem nv_read_loop_overflow_example (fuel : Nat) :
    nv_read_loop (nvExampleEnv fillDevice 1024) 1024 (fuel + 1)
        { size_to_read := 4294967246, offset := 50, data_offset := 0
          data_buffer := (List.range 100).map fun _ => 0, calls := [] } =
      .bufferOverflow
        { size_to_read := 4294967246, offset := 50, data_offset := 0
          data_buffer := (List.range 100).map fun _ => 0
          calls := [{ size := 1024, offset := 50, resp := fillDevice 0 1024 50 }] } := by
  have e1 : ¬ (4294967246 = 0) := by decide
  have e2 : (if 4294967246 > 1024 then 1024 else 4294967246) % UINT16_MOD = 1024 := by decide
  have e3 : 50 % UINT16_MOD = 50 := by decide
  have e4 : memcpy ((List.range 100).map fun _ => 0) 0 (fillDevice 0 1024 50).data = none := by
    unfold memcpy
    rw [if_neg]
    simp only [fillDevice, List.length_map, List.length_range]
    decide
  have e5 : (fillDevice 0 1024 50).rval = TPM2_RC_SUCCESS := rfl
  have e6 : (nvExampleEnv fillDevice 1024).Tss2_Sys_NV_Read = fillDevice := rfl
  rw [nv_read_loop]
  simp only [e1, if_false]
  rw [e2, e3, e6]
  simp only [List.length_nil, e5, ne_eq, not_true_eq_false, if_false]
  rw [e4]
  rfl

set_option maxRecDepth 100000 in
/-- C16 (evaluation at the failing input): declared size 100, offset 50 and
requested length 4294967246 pass both range checks of `nv_read` (the 32-bit
sum is 0); the first transaction asks for 1024 bytes, the module returns 1024
bytes, no more than requested, and the `memcpy` of 1024 bytes into the
100-byte block leaves it. -/
theorem nv_read_wrapping_request_overflows_buffer (fuel : Nat) :
    nv_read (nvExampleEnv fillDevice 1024)
        { size_to_read := 4294967246, offset := 50, output_file := none } false (fuel + 1) =
      .bufferOverflow := by
  have h := nv_read_loop_overflow_example fuel
  have e1 : ¬ (4294967246 = 0) := by decide
  have e2 : ¬ (50 > 100) := by decide
  have e3 : ¬ ((50 + 4294967246) % UINT32_MOD > 100) := by decide
  have e4 : ¬ (1024 > 2048) := by decide
  have p1 : (nvExampleEnv fillDevice 1024).nv_public_rval = TPM2_RC_SUCCESS := rfl
  have p2 : (nvExampleEnv fillDevice 1024).max_buffer_rval = TPM2_RC_SUCCESS := rfl
  have p3 : (nvExampleEnv fillDevice 1024).dataSize = 100 := rfl
  have p4 : (nvExampleEnv fillDevice 1024).max_data_size = 1024 := rfl
  have p5 : (nvExampleEnv fillDevice 1024).TPM2_MAX_NV_BUFFER_SIZE = 2048 := rfl
  have p6 : (nvExampleEnv fillDevice 1024).malloc = some fun _ => 0 := rfl
  unfold nv_read
  simp only [p1, p2, p3, p4, p5, p6, ne_eq, not_true_eq_false, if_false, e1, e2, e3, e4, h]

theorem stutterDevice_at_most (B : List Nat) : AtMostRequested (stutterDevice B) := by
  intro n size off _
  simp only [stutterDevice, List.length_take, List.length_drop]
  split <;> omega

theorem nv_read_request_sizes_witness :
    (∀ r, nv_read (nvExampleEnv (stutterDevice nvExampleContent) 4)
        { size_to_read := 10, offset := 90, output_file := none } false 10 = .returned r →
      ∀ j (h : j < r.calls.length),
        r.calls[j].size = min (10 - bytes_returned (r.calls.take j)) (min 4 2048) ∧
        r.calls[j].offset = 90 + bytes_returned (r.calls.take j) ∧
        r.calls[j].size ≤ 2048) ∧
    ∃ r, nv_read (nvExampleEnv (stutterDevice nvExampleContent) 4)
        { size_to_read := 10, offset := 90, output_file := none } false 10 = .returned r :=
  ⟨(nv_read_request_sizes (nvExampleEnv (stutterDevice nvExampleContent) 4)
      { size_to_read := 10, offset := 90, output_file := none } false 10
      rfl (by decide) (by decide) rfl (by simp [nvExampleEnv])
      (stutterDevice_at_most nvExampleContent)).1,
    ⟨_, rfl⟩⟩

/-! ## Theorems: buffers, endianness and integer parsing of lib/tpm2_util.c -/

/-- C12: for every result buffer, whose block has the capacity
`MAX_DIGEST_BUFFER`, and every append buffer, `tpm2_util_concat_buffer`
returns true exactly when `result.size + append.size` does not exceed
`MAX_DIGEST_BUFFER`; on true the new size is the sum and the new content is
the old content followed by the appended bytes; on false the result buffer,
size and block, is unchanged. -/
theorem concat_buffer_fails_closed (MAX_DIGEST_BUFFER : Nat) (result append : TPM2B)
    (hmax : MAX_DIGEST_BUFFER < 65536)
    (hcap : result.buffer.length = MAX_DIGEST_BUFFER)
    (happ : append.size ≤ append.buffer.length) :
    ∃ ok r, tpm2_util_concat_buffer MAX_DIGEST_BUFFER result append = some (ok, r) ∧
      (ok = true ↔ result.size + append.size ≤ MAX_DIGEST_BUFFER) ∧
      (ok = true → r.size = result.size + append.size ∧
        r.buffer.take r.size
          = result.buffer.take result.size ++ append.buffer.take append.size ∧
        r.buffer.length = MAX_DIGEST_BUFFER) ∧
      (ok = false → r = result) := by
  have h1 : ¬ result.size + append.size < result.size := by omega
  by_cases h2 : result.size + append.size > MAX_DIGEST_BUFFER
  · refine ⟨false, result, ?_, ?_, ?_, ?_⟩
    · simp only [tpm2_util_concat_buffer, h1, h2, if_false, if_true]
    · constructor
      · intro h; exact Bool.noConfusion h
      · intro h; omega
    · intro h; exact Bool.noConfusion h
    · intro _; rfl
  · have h3 : ¬ append.buffer.length < append.size := by omega
    have hlen : (append.buffer.take append.size).length = append.size := by
      rw [List.length_take]; omega
    obtain ⟨buf, hcpy, hbl, htake⟩ :=
      memcpy_ok result.buffer result.size (append.buffer.take append.size)
        (by rw [hlen, hcap]; omega)
    have hmod : (result.size + append.size) % UINT16_MOD = result.size + append.size :=
      Nat.mod_eq_of_lt (by simp only [UINT16_MOD]; omega)
    refine ⟨true, { size := result.size + append.size, buffer := buf }, ?_, ?_, ?_, ?_⟩
    · simp only [tpm2_util_concat_buffer, h1, h2, h3, if_false, hcpy, hmod]
    · constructor
      · intro _; omega
      · intro _; rfl
    · intro _
      refine ⟨rfl, ?_, by rw [hbl, hcap]⟩
      rw [hlen] at htake
      exact htake
    · intro h; exact Bool.noConfusion h

theorem concat_buffer_fails_closed_witness :
    ∃ ok r, tpm2_util_concat_buffer 8 ⟨3, [1, 2, 3, 0, 0, 0, 0, 0]⟩ ⟨2, [9, 8, 7]⟩
        = some (ok, r) ∧
      (ok = true ↔ 3 + 2 ≤ 8) ∧
      (ok = true → r.size = 3 + 2 ∧
        r.buffer.take r.size = [1, 2, 3, 0, 0, 0, 0, 0].take 3 ++ [9, 8, 7].take 2 ∧
        r.buffer.length = 8) ∧
      (ok = false → r = ⟨3, [1, 2, 3, 0, 0, 0, 0, 0]⟩) :=
  concat_buffer_fails_closed 8 ⟨3, [1, 2, 3, 0, 0, 0, 0, 0]⟩ ⟨2, [9, 8, 7]⟩
    (by decide) (by decide) (by decide)

theorem le_bytes_length : ∀ (n x : Nat), (le_bytes n x).length = n := by
  intro n
  induction n with
  | zero => intro x; rfl
  | succ n ih => intro x; simp [le_bytes, ih]

theorem le_bytes_lt : ∀ (n x : Nat), ∀ b ∈ le_bytes n x, b < 256 := by
  intro n
  induction n with
  | zero => intro x b hb; simp [le_bytes] at hb
  | succ n ih =>
    intro x b hb
    simp only [le_bytes, List.mem_cons] at hb
    rcases hb with rfl | hb
    · exact Nat.mod_lt _ (by decide)
    · exact ih _ b hb

theorem le_value_le_bytes : ∀ (n x : Nat), x < 256 ^ n → le_value (le_bytes n x) = x := by
  intro n
  induction n with
  | zero => intro x hx; simp at hx; simp [le_bytes, le_value, hx]
  | succ n ih =>
    intro x hx
    have hdiv : x / 256 < 256 ^ n := by
      rw [Nat.div_lt_iff_lt_mul (by decide)]
      rw [pow_succ] at hx
      exact hx
    simp only [le_bytes, le_value, ih _ hdiv]
    omega

theorem le_bytes_le_value : ∀ (l : List Nat), (∀ b ∈ l, b < 256) →
    le_bytes l.length (le_value l) = l := by
  intro l
  induction l with
  | nil => intro _; rfl
  | cons b bs ih =>
    intro h
    have hb : b < 256 := h b (by simp)
    have hbs : ∀ c ∈ bs, c < 256 := fun c hc => h c (by simp [hc])
    simp only [List.length_cons, le_bytes, le_value]
    have e1 : (b + 256 * le_value bs) % 256 = b := by omega
    have e2 : (b + 256 * le_value bs) / 256 = le_value bs := by omega
    rw [e1, e2, ih hbs]

theorem le_value_lt : ∀ (l : List Nat), (∀ b ∈ l, b < 256) → le_value l < 256 ^ l.length := by
  intro l
  induction l with
  | nil => intro _; simp [le_value]
  | cons b bs ih =>
    intro h
    have hb : b < 256 := h b (by simp)
    have := ih (fun c hc => h c (by simp [hc]))
    simp only [le_value, List.length_cons, pow_succ]
    omega

/-- The loop `tmp[i] = bytes[n - i - 1]` writes the bytes in reverse order. -/
theorem swap_loop_reverse (bytes : List Nat) (n : Nat) (h : bytes.length = n) :
    (List.range n).map (fun i => bytes.getD (n - i - 1) 0) = bytes.reverse := by
  apply List.ext_getElem
  · simp [h]
  · intro i h1 h2
    simp only [List.length_map, List.length_range] at h1
    rw [List.getElem_map, List.getElem_range, List.getElem_reverse,
      List.getD_eq_getElem _ _ (by omega)]
    congr 1
    omega

theorem object_bytes_length (host : Endianness) (n x : Nat) :
    (object_bytes host n x).length = n := by
  cases host <;> simp [object_bytes, le_bytes_length]

/-- The swap on either host: the number whose bytes are those of `data`
reversed. -/
theorem endian_convert_eq (size : Nat) (host : Endianness) (data : Nat) :
    STRING_BYTES_ENDIAN_CONVERT size host data
      = le_value (le_bytes (size / 8) data).reverse := by
  unfold STRING_BYTES_ENDIAN_CONVERT
  simp only
  rw [swap_loop_reverse _ _ (object_bytes_length host (size / 8) data)]
  cases host <;> simp [object_bytes, object_value]

theorem is_big_endian_eq (host : Endianness) :
    tpm2_util_is_big_endian host = decide (host = .big) := by
  cases host <;> decide

/-- The laws of `EndianLaws` for the two macros at any width of whole bytes. -/
theorem endian_laws_of_macros (host : Endianness) (size : Nat) (x : Nat)
    (hx : x < 256 ^ (size / 8)) :
    EndianLaws host (size / 8) (STRING_BYTES_ENDIAN_CONVERT size)
      (STRING_BYTES_ENDIAN_HTON size) (STRING_BYTES_ENDIAN_HTON size) x := by
  have hrev_lt : ∀ b ∈ (le_bytes (size / 8) x).reverse, b < 256 := by
    intro b hb
    exact le_bytes_lt _ _ b (List.mem_reverse.mp hb)
  have hrev_len : (le_bytes (size / 8) x).reverse.length = size / 8 := by
    simp [le_bytes_length]
  have hbytes : le_bytes (size / 8) (le_value (le_bytes (size / 8) x).reverse)
      = (le_bytes (size / 8) x).reverse := by
    have := le_bytes_le_value _ hrev_lt
    rw [hrev_len] at this
    exact this
  have hswap_lt : STRING_BYTES_ENDIAN_CONVERT size host x < 256 ^ (size / 8) := by
    rw [endian_convert_eq]
    have := le_value_lt _ hrev_lt
    rw [hrev_len] at this
    exact this
  have hinv : ∀ h : Endianness, STRING_BYTES_ENDIAN_CONVERT size h
      (STRING_BYTES_ENDIAN_CONVERT size h x) = x := by
    intro h
    rw [endian_convert_eq, endian_convert_eq, hbytes, List.reverse_reverse,
      le_value_le_bytes _ _ hx]
  refine ⟨?_, hswap_lt, hinv host, ?_, ?_, ?_, rfl, ?_⟩
  · rw [endian_convert_eq]
    cases host
    · simp only [object_bytes]; exact hbytes
    · simp only [object_bytes]; rw [hbytes]
  · intro hb
    simp [STRING_BYTES_ENDIAN_HTON, is_big_endian_eq, hb]
  · intro hl
    simp [STRING_BYTES_ENDIAN_HTON, is_big_endian_eq, hl]
  · cases host
    · simp only [STRING_BYTES_ENDIAN_HTON, is_big_endian_eq]
      simp only [reduceCtorEq, decide_False, Bool.false_eq_true, if_false]
      rw [endian_convert_eq]
      simp only [object_bytes]
      exact hbytes
    · simp [STRING_BYTES_ENDIAN_HTON, is_big_endian_eq]
  · cases host
    · simp only [STRING_BYTES_ENDIAN_HTON, is_big_endian_eq]
      simp only [reduceCtorEq, decide_False, Bool.false_eq_true, if_false]
      exact hinv .little
    · simp [STRING_BYTES_ENDIAN_HTON, is_big_endian_eq]

/-- C13: for each width 16, 32 and 64, every value `x` of that width and
either host endianness, the laws of `EndianLaws` hold for
`tpm2_util_endian_swap`, `tpm2_util_hton` and `tpm2_util_ntoh`: the swap
reverses the byte order and is its own inverse, `hton` is the identity on a
big-endian host and the swap on a little-endian one, so its result lies in
host memory as the big-endian representation of `x`, and `ntoh` equals `hton`,
hence `ntoh(hton(x)) = x`. -/
theorem endian_conversions (host : Endianness) (x : Nat) :
    (x < 2 ^ 16 → EndianLaws host 2 tpm2_util_endian_swap_16 tpm2_util_hton_16
      tpm2_util_ntoh_16 x) ∧
    (x < 2 ^ 32 → EndianLaws host 4 tpm2_util_endian_swap_32 tpm2_util_hton_32
      tpm2_util_ntoh_32 x) ∧
    (x < 2 ^ 64 → EndianLaws host 8 tpm2_util_endian_swap_64 tpm2_util_hton_64
      tpm2_util_ntoh_64 x) := by
  refine ⟨fun h => ?_, fun h => ?_, fun h => ?_⟩
  · exact endian_laws_of_macros host 16 x (by norm_num at h ⊢; exact h)
  · exact endian_laws_of_macros host 32 x (by norm_num at h ⊢; exact h)
  · exact endian_laws_of_macros host 64 x (by norm_num at h ⊢; exact h)

theorem endian_conversions_witness :
    EndianLaws .little 4 tpm2_util_endian_swap_32 tpm2_util_hton_32 tpm2_util_ntoh_32
        0x11223344 ∧
      tpm2_util_hton_32 .little 0x11223344 = 0x44332211 ∧
      object_bytes .little 4 (tpm2_util_hton_32 .little 0x11223344)
        = [0x11, 0x22, 0x33, 0x44] :=
  ⟨(endian_conversions .little 0x11223344).2.1 (by decide), by decide, by decide⟩

/-- The characters that are digits of some base up to 16. -/
theorem strtoul_digit_mem (base : Nat) (hb : base ≤ 16) (c : Char)
    (h : (strtoul_digit base c).isSome = true) : c ∈ hexChars := by
  have hc : c = Char.ofNat c.toNat := (Char.ofNat_toNat c).symm
  have e0 : ('0' : Char).toNat = 48 := rfl
  have e9 : ('9' : Char).toNat = 57 := rfl
  have ea : ('a' : Char).toNat = 97 := rfl
  have ez : ('z' : Char).toNat = 122 := rfl
  have eA : ('A' : Char).toNat = 65 := rfl
  have eZ : ('Z' : Char).toNat = 90 := rfl
  simp only [strtoul_digit, Bool.and_eq_true, decide_eq_true_eq, char_le_iff, e0, e9, ea, ez,
    eA, eZ] at h
  generalize c.toNat = n at h hc
  subst hc
  have hn : (48 ≤ n ∧ n ≤ 57) ∨ (97 ≤ n ∧ n ≤ 102) ∨ (65 ≤ n ∧ n ≤ 70) := by
    split at h
    · left; assumption
    · split at h
      · right; left
        rename_i h1
        split at h
        · omega
        · simp at h
      · split at h
        · right; right
          rename_i h1
          split at h
          · omega
          · simp at h
        · split at h
          · omega
          · simp at h
  rcases hn with ⟨h1, h2⟩ | ⟨h1, h2⟩ | ⟨h1, h2⟩ <;> interval_cases n <;> decide

set_option maxRecDepth 100000 in
theorem hexChars_facts : ∀ c ∈ hexChars,
    isspace c = false ∧ c ≠ '-' ∧ c ≠ '+' ∧ c ≠ 'x' ∧ c ≠ 'X' ∧
    (strtoul_digit 16 c).isSome = true ∧
    ((strtoul_digit 8 c).isSome = true → (strtoul_digit 10 c).isSome = true) ∧
    (isxdigit c = true) ∧
    ((strtoul_digit 10 c).isSome = true → c ≠ '0' → (strtoul_digit 10 c).getD 0 ≠ 0) ∧
    (c = '0' → strtoul_digit 8 c = some 0) := by
  decide


theorem strtoul_digits_all (base : Nat) :
    ∀ (ds : List Char) (n acc : Nat), (∀ c ∈ ds, (strtoul_digit base c).isSome = true) →
      strtoul_digits base n acc ds
        = (n + ds.length,
           ds.foldl (fun a c => a * base + (strtoul_digit base c).getD 0) acc, []) := by
  intro ds
  induction ds with
  | nil => intro n acc _; rfl
  | cons c cs ih =>
    intro n acc h
    have hc := h c (by simp)
    obtain ⟨v, hv⟩ := Option.isSome_iff_exists.mp hc
    rw [strtoul_digits]
    simp only [hv]
    rw [ih _ _ (fun d hd => h d (by simp [hd]))]
    simp only [List.length_cons, List.foldl_cons, hv, Option.getD_some]
    congr 1
    omega

theorem strtoul_digits_rest_nil (base : Nat) :
    ∀ (cs : List Char) (n acc : Nat), (strtoul_digits base n acc cs).2.2 = [] →
      ∀ c ∈ cs, (strtoul_digit base c).isSome = true := by
  intro cs
  induction cs with
  | nil => intro n acc _ c hc; simp at hc
  | cons d ds ih =>
    intro n acc h c hc
    rw [strtoul_digits] at h
    cases hd : strtoul_digit base d with
    | none => simp [hd] at h
    | some v =>
      simp only [hd] at h
      rcases List.mem_cons.mp hc with rfl | hc
      · simp [hd]
      · exact ih _ _ h c hc

theorem dropWhile_isspace_append (ws rest : List Char) (b : Char) (bs : List Char)
    (hws : ∀ c ∈ ws, isspace c = true) (hrest : rest = b :: bs) (hb : isspace b = false) :
    (ws ++ rest).dropWhile isspace = rest := by
  induction ws with
  | nil =>
    subst hrest
    simp [List.dropWhile, hb]
  | cons w ws ih =>
    have hw := hws w (by simp)
    simp only [List.cons_append, List.dropWhile_cons, hw, if_true]
    exact ih (fun c hc => hws c (by simp [hc]))

theorem strtoul_sign_none (b : Char) (bs : List Char) (h1 : b ≠ '-') (h2 : b ≠ '+') :
    strtoul_sign (b :: bs) = (false, b :: bs) := by
  unfold strtoul_sign
  split
  · rename_i t heq
    simp only [List.cons.injEq] at heq
    exact absurd heq.1 h1
  · rename_i t heq
    simp only [List.cons.injEq] at heq
    exact absurd heq.1 h2
  · rfl

/-- What `strtoul_sign` splits off is no sign, a plus or a minus. -/
theorem strtoul_sign_inv (s : List Char) :
    ∃ sign, s = sign ++ (strtoul_sign s).2 ∧
      ((sign = [] ∧ (strtoul_sign s).1 = false) ∨ (sign = ['+'] ∧ (strtoul_sign s).1 = false) ∨
        (sign = ['-'] ∧ (strtoul_sign s).1 = true)) := by
  unfold strtoul_sign
  split
  · exact ⟨['-'], rfl, Or.inr (Or.inr ⟨rfl, rfl⟩)⟩
  · exact ⟨['+'], rfl, Or.inr (Or.inl ⟨rfl, rfl⟩)⟩
  · exact ⟨[], rfl, Or.inl ⟨rfl, rfl⟩⟩

theorem strtoul_base_hex (x d : Char) (t : List Char) (hx : x = 'x' ∨ x = 'X')
    (hd : isxdigit d = true) : strtoul_base ('0' :: x :: d :: t) = (16, d :: t) := by
  have hc : ((x = 'x' || x = 'X') && isxdigit d) = true := by
    rcases hx with rfl | rfl <;> simp [hd]
  simp only [strtoul_base, hc, if_true]

theorem strtoul_base_octal (ds : List Char)
    (h : ∀ c ∈ ds, (strtoul_digit 8 c).isSome = true) :
    strtoul_base ('0' :: ds) = (8, '0' :: ds) := by
  unfold strtoul_base
  split
  · rename_i x d t heq
    simp only [List.cons.injEq, true_and] at heq
    have hx : (strtoul_digit 8 x).isSome = true := h x (by rw [heq]; simp)
    have hmem := strtoul_digit_mem 8 (by decide) x hx
    have hf := hexChars_facts x hmem
    have hne : ((x = 'x' || x = 'X') && isxdigit d) = false := by
      have h1 : decide (x = 'x') = false := decide_eq_false hf.2.2.2.1
      have h2 : decide (x = 'X') = false := decide_eq_false hf.2.2.2.2.1
      simp [h1, h2]
    simp only [hne, Bool.false_eq_true, if_false]
  · rfl
  · rename_i h1 h2
    exact absurd rfl (h2 ds)

theorem strtoul_base_decimal (d : Char) (ds : List Char) (hd : d ≠ '0') :
    strtoul_base (d :: ds) = (10, d :: ds) := by
  unfold strtoul_base
  split
  · rename_i x e t heq
    simp only [List.cons.injEq] at heq
    exact absurd heq.1 hd
  · rename_i t heq
    simp only [List.cons.injEq] at heq
    exact absurd heq.1 hd
  · rfl

/-- The three outcomes of `strtoul_base`. -/
theorem strtoul_base_inv (s : List Char) :
    (∃ x, (strtoul_base s).1 = 16 ∧ s = '0' :: x :: (strtoul_base s).2 ∧ (x = 'x' ∨ x = 'X') ∧
        (strtoul_base s).2 ≠ []) ∨
      (∃ t, (strtoul_base s).1 = 8 ∧ (strtoul_base s).2 = s ∧ s = '0' :: t) ∨
      ((strtoul_base s).1 = 10 ∧ (strtoul_base s).2 = s ∧ ∀ t, s ≠ '0' :: t) := by
  unfold strtoul_base
  split
  · rename_i x d t
    by_cases hc : ((x = 'x' || x = 'X') && isxdigit d) = true
    · rw [if_pos hc]
      left
      refine ⟨x, rfl, rfl, ?_, List.cons_ne_nil _ _⟩
      simp only [Bool.and_eq_true, Bool.or_eq_true, decide_eq_true_eq] at hc
      exact hc.1
    · rw [if_neg hc]
      right; left
      exact ⟨_, rfl, rfl, rfl⟩
  · right; left
    exact ⟨_, rfl, rfl, rfl⟩
  · rename_i h1 h2
    right; right
    refine ⟨rfl, rfl, ?_⟩
    intro t ht
    exact h2 t ht

theorem numeral_value_leading_zero (ds : List Char) :
    numeral_value 8 ('0' :: ds) = numeral_value 8 ds := by
  have h0 : strtoul_digit 8 '0' = some 0 := by decide
  simp [numeral_value, h0]


/-- The body of an accepted numeral: its first character, the base
`strtoul_base` picks for it and the digits the digit loop then reads. -/
theorem accepted_body (body : List Char) (v : Nat)
    (h : (∃ d ds, body = d :: ds ∧ d ≠ '0' ∧ (∀ c ∈ body, (strtoul_digit 10 c).isSome = true) ∧
          v = numeral_value 10 body) ∨
        (∃ ds, body = '0' :: ds ∧ (∀ c ∈ ds, (strtoul_digit 8 c).isSome = true) ∧
          v = numeral_value 8 ds) ∨
        (∃ x ds, body = '0' :: x :: ds ∧ (x = 'x' ∨ x = 'X') ∧ ds ≠ [] ∧
          (∀ c ∈ ds, isxdigit c = true) ∧ v = numeral_value 16 ds)) :
    ∃ b bs base ds, body = b :: bs ∧ b ∈ hexChars ∧ strtoul_base body = (base, ds) ∧
      (∀ c ∈ ds, (strtoul_digit base c).isSome = true) ∧ ds ≠ [] ∧
      numeral_value base ds = v := by
  rcases h with ⟨d, ds, hb, hd, hall, hv⟩ | ⟨ds, hb, hall, hv⟩ | ⟨x, ds, hb, hx, hne, hall, hv⟩
  · subst hb
    refine ⟨d, ds, 10, d :: ds, rfl, ?_, strtoul_base_decimal d ds hd, hall,
      List.cons_ne_nil _ _, hv.symm⟩
    exact strtoul_digit_mem 10 (by decide) d (hall d (by simp))
  · subst hb
    refine ⟨'0', ds, 8, '0' :: ds, rfl, by decide, strtoul_base_octal ds hall, ?_,
      List.cons_ne_nil _ _, ?_⟩
    · intro c hc
      rcases List.mem_cons.mp hc with rfl | hc
      · decide
      · exact hall c hc
    · rw [numeral_value_leading_zero, hv]
  · subst hb
    cases ds with
    | nil => exact absurd rfl hne
    | cons d t =>
      refine ⟨'0', x :: d :: t, 16, d :: t, rfl, by decide,
        strtoul_base_hex x d t hx (hall d (by simp)), ?_, List.cons_ne_nil _ _, hv.symm⟩
      intro c hc
      exact (hexChars_facts c (isxdigit_mem c (hall c hc))).2.2.2.2.2.1

/-- What `strtoul` returns on an accepted numeral that fits `unsigned long`. -/
theorem strtoul_of_accepted (U : Nat) (s : List Char) (neg : Bool) (v : Nat)
    (h : AcceptedNumeral s neg v) (hv : v ≤ U) :
    s ≠ [] ∧
    strtoul U s = { value := if neg then (U + 1 - v) % (U + 1) else v, endptr := [],
                    errno := 0 } := by
  obtain ⟨ws, sign, body, hs, hws, hsign, hbody⟩ := h
  obtain ⟨b, bs, base, ds, hb, hmem, hbase, hall, hne, hval⟩ := accepted_body body v hbody
  have hf := hexChars_facts b hmem
  have hdrop : s.dropWhile isspace = sign ++ body := by
    rw [hs]
    rcases hsign with ⟨rfl, _⟩ | ⟨rfl, _⟩ | ⟨rfl, _⟩
    · exact dropWhile_isspace_append ws _ b bs hws (by simpa using hb) hf.1
    · exact dropWhile_isspace_append ws _ '+' body hws rfl (by decide)
    · exact dropWhile_isspace_append ws _ '-' body hws rfl (by decide)
  have hsg : strtoul_sign (sign ++ body) = (neg, body) := by
    rcases hsign with ⟨rfl, rfl⟩ | ⟨rfl, rfl⟩ | ⟨rfl, rfl⟩
    · rw [List.nil_append, hb]
      exact strtoul_sign_none b bs hf.2.1 hf.2.2.1
    · rfl
    · rfl
  have hdig := strtoul_digits_all base ds 0 0 hall
  have hlen : ds.length ≠ 0 := fun h0 => hne (List.length_eq_zero.mp h0)
  refine ⟨?_, ?_⟩
  · rw [hs, hb]
    simp
  · unfold strtoul
    simp only [hdrop, hsg, hbase, hdig, Nat.zero_add, hlen, if_false]
    have hnv : ds.foldl (fun a c => a * base + (strtoul_digit base c).getD 0) 0 = v := hval
    simp only [hnv]
    rw [if_neg (by omega)]

/-- A string that `tpm2_util_string_to_uint32` accepts is an accepted numeral
that fits `unsigned long`. -/
theorem accepted_of_true (U : Nat) (s : List Char) (out : Nat)
    (h : (tpm2_util_string_to_uint32 U (some s) out).1 = true) :
    ∃ neg v, AcceptedNumeral s neg v ∧ v ≤ U := by
  cases s with
  | nil => simp [tpm2_util_string_to_uint32] at h
  | cons c cs =>
    simp only [tpm2_util_string_to_uint32] at h
    by_cases he : (strtoul U (c :: cs)).errno ≠ 0
    · simp [he] at h
    · by_cases hp : (strtoul U (c :: cs)).endptr ≠ []
      · simp [he, hp] at h
      · simp only [ne_eq, not_not] at he hp
        unfold strtoul at he hp
        simp only at he hp
        obtain ⟨sign, hsplit, hsign⟩ := strtoul_sign_inv ((c :: cs).dropWhile isspace)
        generalize hsg : strtoul_sign ((c :: cs).dropWhile isspace) = sg at he hp hsplit hsign
        have hbinv := strtoul_base_inv sg.2
        generalize hbs : strtoul_base sg.2 = bsd at he hp hbinv
        generalize hdg : strtoul_digits bsd.1 0 0 bsd.2 = dg at he hp
        by_cases h0 : dg.1 = 0
        · simp [h0] at hp
        · by_cases hU : dg.2.1 > U
          · simp [h0, hU, ERANGE] at he
          · simp only [h0, hU, if_false] at hp
            have hall := strtoul_digits_rest_nil bsd.1 bsd.2 0 0 (by rw [hdg]; exact hp)
            have hd2 := strtoul_digits_all bsd.1 bsd.2 0 0 hall
            rw [hdg] at hd2
            have hv : dg.2.1 = numeral_value bsd.1 bsd.2 := by rw [hd2]; rfl
            have hne : bsd.2 ≠ [] := by
              intro hnil
              apply h0
              rw [hd2, hnil]
              rfl
            refine ⟨sg.1, dg.2.1, ⟨(c :: cs).takeWhile isspace, sign, sg.2, ?_, ?_, hsign, ?_⟩,
              by omega⟩
            · rw [← hsplit, List.takeWhile_append_dropWhile]
            · intro d hd
              exact (List.mem_takeWhile_imp hd)
            · rcases hbinv with ⟨x, h16, hs16, hx, _⟩ | ⟨t, h8, hs8, hz⟩ | ⟨h10, hs10, hnz⟩
              · right; right
                refine ⟨x, bsd.2, hs16, hx, hne, ?_, by rw [hv, h16]⟩
                intro d hd
                have := hall d hd
                rw [h16] at this
                exact (hexChars_facts d (strtoul_digit_mem 16 (by decide) d this)).2.2.2.2.2.2.2.1
              · right; left
                refine ⟨t, hz, ?_, ?_⟩
                · intro d hd
                  have := hall d (by rw [hs8, hz]; simp [hd])
                  rw [h8] at this
                  exact this
                · rw [hv, h8, hs8, hz, numeral_value_leading_zero]
              · left
                rw [hs10] at hne hall hv
                cases hsb : sg.2 with
                | nil => exact absurd hsb hne
                | cons d ds =>
                  refine ⟨d, ds, rfl, ?_, ?_, ?_⟩
                  · intro hd0
                    exact hnz ds (by rw [hsb, hd0])
                  · intro e he'
                    have := hall e (by rw [hsb]; exact he')
                    rw [h10] at this
                    exact this
                  · rw [hv, h10, hsb]


/-- On a 64-bit `unsigned long` the numeral 4294967296 fits `unsigned long`,
so `strtoul` reports no range error, and the conversion to `uint32_t` stores
0: the function returns true. -/
theorem string_to_uint32_truncates_example :
    tpm2_util_string_to_uint32 18446744073709551615
        (some ['4', '2', '9', '4', '9', '6', '7', '2', '9', '6']) 99 = (true, 0) := by
  decide

/-- C11 (counterexample): with either width of `unsigned long` the function
accepts "010" and stores 8, not 10; it accepts " 7", which has leading white
space, and stores 7; and it accepts "-1" and stores 4294967295. -/
theorem string_to_uint32_counterexample :
    tpm2_util_string_to_uint32 18446744073709551615 (some ['0', '1', '0']) 99 = (true, 8) ∧
    tpm2_util_string_to_uint32 4294967295 (some ['0', '1', '0']) 99 = (true, 8) ∧
    tpm2_util_string_to_uint32 18446744073709551615 (some [' ', '7']) 99 = (true, 7) ∧
    tpm2_util_string_to_uint32 18446744073709551615 (some ['-', '1']) 99
      = (true, 4294967295) := by
  decide

/-- C11 (amended): `tpm2_util_string_to_uint32` returns true only when the
whole string is an accepted numeral (optional white space, an optional sign,
then a decimal numeral, a 0 followed by octal digits, or `0x` and hex digits)
that fits `unsigned long`; it returns true for every accepted numeral whose
magnitude fits in 32 bits, and for one without a minus sign the stored value
is the number the string denotes; whenever it returns false the output is
unchanged. -/
theorem string_to_uint32_accepts (ULONG_MAX : Nat) (s : List Char) (out : Nat)
    (hU : 4294967295 ≤ ULONG_MAX) :
    ((tpm2_util_string_to_uint32 ULONG_MAX (some s) out).1 = true →
      ∃ neg v, AcceptedNumeral s neg v ∧ v ≤ ULONG_MAX) ∧
    (∀ neg v, AcceptedNumeral s neg v → v < 4294967296 →
      (tpm2_util_string_to_uint32 ULONG_MAX (some s) out).1 = true) ∧
    (∀ v, AcceptedNumeral s false v → v < 4294967296 →
      tpm2_util_string_to_uint32 ULONG_MAX (some s) out = (true, v)) ∧
    ((tpm2_util_string_to_uint32 ULONG_MAX (some s) out).1 = false →
      (tpm2_util_string_to_uint32 ULONG_MAX (some s) out).2 = out) := by
  have key : ∀ neg v, AcceptedNumeral s neg v → v < 4294967296 →
      tpm2_util_string_to_uint32 ULONG_MAX (some s) out
        = (true, (if neg then (ULONG_MAX + 1 - v) % (ULONG_MAX + 1) else v) % UINT32_MOD) := by
    intro neg v hacc hv
    obtain ⟨hne, hr⟩ := strtoul_of_accepted ULONG_MAX s neg v hacc (by omega)
    cases s with
    | nil => exact absurd rfl hne
    | cons c cs =>
      simp only [tpm2_util_string_to_uint32, hr, ne_eq, not_true_eq_false, if_false]
  refine ⟨accepted_of_true ULONG_MAX s out, ?_, ?_, ?_⟩
  · intro neg v hacc hv
    rw [key neg v hacc hv]
  · intro v hacc hv
    rw [key false v hacc hv]
    simp only [Bool.false_eq_true, if_false]
    rw [Nat.mod_eq_of_lt (by simp only [UINT32_MOD]; omega)]
  · intro h
    cases s with
    | nil => rfl
    | cons c cs =>
      simp only [tpm2_util_string_to_uint32] at h ⊢
      split
      · rfl
      · split
        · rfl
        · rename_i h1 h2
          simp [h1, h2] at h

theorem string_to_uint32_accepts_witness :
    tpm2_util_string_to_uint32 18446744073709551615 (some ['0', 'x', '1', 'F']) 99
      = (true, 31) :=
  (string_to_uint32_accepts 18446744073709551615 ['0', 'x', '1', 'F'] 99 (by decide)).2.2.1 31
    ⟨[], [], ['0', 'x', '1', 'F'], rfl, by simp, Or.inl ⟨rfl, rfl⟩,
      Or.inr (Or.inr ⟨'x', ['1', 'F'], rfl, Or.inl rfl, by simp, by decide, by decide⟩)⟩
    (by decide)

/-! ## Theorems: tools/tpm2_verifysignature.c -/

theorem generate_signature_result_ctx (ctx : tpm2_verifysig_ctx) (loaded : Bool)
    (trace : List VsEvent) : (generate_signature_result ctx loaded trace).2.1 = ctx := by
  unfold generate_signature_result
  cases loaded <;> rfl

theorem generate_signature_flags (env : VsEnv) (ctx : tpm2_verifysig_ctx)
    (trace : List VsEvent) : (generate_signature env ctx trace).2.1.flags = ctx.flags := by
  unfold generate_signature
  by_cases hr : ctx.flags.raw = true
  · rw [if_pos hr]
    simp only [generate_signature_result_ctx]
  · rw [if_neg hr]
    simp only [generate_signature_result_ctx]

theorem init_digest_mismatch (env : VsEnv) (ctx : tpm2_verifysig_ctx)
    (h : ctx.flags.digest = true ∧ (ctx.flags.msg = true ∨ ctx.flags.halg = true)) :
    init env ctx = { result := false, ctx := ctx
                     trace := [.log_err
                       "Cannot specify --digest (-D) and ( --msg (-m) or --halg (-g) )"] } := by
  have hc : (ctx.flags.digest && (ctx.flags.msg || ctx.flags.halg)) = true := by
    rcases h with ⟨h1, h2 | h2⟩ <;> simp [h1, h2]
  unfold init
  rw [if_pos hc]

theorem init_missing_inputs (env : VsEnv) (ctx : tpm2_verifysig_ctx)
    (h1 : ¬ (ctx.flags.digest = true ∧ (ctx.flags.msg = true ∨ ctx.flags.halg = true)))
    (h2 : ¬ ((ctx.flags.key_handle = true ∨ ctx.flags.key_context = true) ∧
        ctx.flags.sig = true ∧ ctx.flags.ticket = true)) :
    init env ctx = { result := false, ctx := ctx
                     trace := [.log_err ("--keyHandle (-k) or --keyContext (-c) and " ++
                       "--sig (-s) and --ticket (-t) must be specified")] } := by
  have hc1 : ¬ (ctx.flags.digest && (ctx.flags.msg || ctx.flags.halg)) = true := by
    intro h; apply h1; simpa using h
  have hc2 : (!((ctx.flags.key_handle || ctx.flags.key_context) && ctx.flags.sig
      && ctx.flags.ticket)) = true := by
    rw [Bool.not_eq_true']
    cases hv : ((ctx.flags.key_handle || ctx.flags.key_context) && ctx.flags.sig
      && ctx.flags.ticket)
    · rfl
    · exfalso; apply h2
      simp only [Bool.and_eq_true, Bool.or_eq_true] at hv
      exact ⟨hv.1.1, hv.1.2, hv.2⟩
  unfold init
  rw [if_neg hc1, if_pos hc2]
  rfl

theorem init_compute_digest_no_source (env : VsEnv) (ctx : tpm2_verifysig_ctx)
    (msg : Option TPM2B) (trace : List VsEvent)
    (hd : ctx.flags.digest = false) (hm : ctx.flags.msg = false) :
    (init_compute_digest env ctx msg trace).result = false := by
  simp only [init_compute_digest, hd, hm, Bool.not_false, if_true]

theorem init_load_key_no_source (env : VsEnv) (ctx : tpm2_verifysig_ctx)
    (msg : Option TPM2B) (trace : List VsEvent)
    (hd : ctx.flags.digest = false) (hm : ctx.flags.msg = false) :
    (init_load_key env ctx msg trace).result = false := by
  unfold init_load_key
  split
  · simp only
    split
    · rfl
    · exact init_compute_digest_no_source env _ msg _ hd hm
  · exact init_compute_digest_no_source env ctx msg trace hd hm

theorem init_load_signature_no_source (env : VsEnv) (ctx : tpm2_verifysig_ctx)
    (msg : Option TPM2B) (trace : List VsEvent)
    (hd : ctx.flags.digest = false) (hm : ctx.flags.msg = false) :
    (init_load_signature env ctx msg trace).result = false := by
  unfold init_load_signature
  split
  · have hf := generate_signature_flags env ctx trace
    split
    · rfl
    · rename_i c t heq
      rw [heq] at hf
      simp only at hf
      exact init_load_key_no_source env c msg t (by rw [hf]; exact hd) (by rw [hf]; exact hm)
  · exact init_load_key_no_source env ctx msg trace hd hm

theorem init_no_message_source (env : VsEnv) (ctx : tpm2_verifysig_ctx)
    (hd : ctx.flags.digest = false) (hm : ctx.flags.msg = false) :
    (init env ctx).result = false := by
  unfold init
  split
  · rfl
  · split
    · rfl
    · rw [if_neg (by rw [hm]; simp)]
      exact init_load_signature_no_source env ctx none [] hd hm

/-- C15: for every combination of the eight flags and whatever the files and
the TPM would answer: when `digest` is set together with `msg` or `halg`, and
when not ((`key_handle` or `key_context`) and `sig` and `ticket`), `init`
returns false, leaves `ctx` alone and its only outside call is one `LOG_ERR`,
so no file and no TPM command is touched; when neither `digest` nor `msg` is
set it returns false; hence when it returns true exactly one of `digest` and
`msg` is set (and `halg` is not set together with `digest`). -/
theorem init_flag_checks (env : VsEnv) (ctx : tpm2_verifysig_ctx) :
    ((ctx.flags.digest = true ∧ (ctx.flags.msg = true ∨ ctx.flags.halg = true)) →
      (init env ctx).result = false ∧ (init env ctx).ctx = ctx ∧
      (∃ msg, (init env ctx).trace = [.log_err msg]) ∧
      ∀ e ∈ (init env ctx).trace, e.touchesFileOrTpm = false) ∧
    (¬ ((ctx.flags.key_handle = true ∨ ctx.flags.key_context = true) ∧
        ctx.flags.sig = true ∧ ctx.flags.ticket = true) →
      (init env ctx).result = false ∧ (init env ctx).ctx = ctx ∧
      (∃ msg, (init env ctx).trace = [.log_err msg]) ∧
      ∀ e ∈ (init env ctx).trace, e.touchesFileOrTpm = false) ∧
    ((ctx.flags.digest = false ∧ ctx.flags.msg = false) → (init env ctx).result = false) ∧
    ((init env ctx).result = true →
      ((ctx.flags.digest = true ∧ ctx.flags.msg = false ∧ ctx.flags.halg = false) ∨
        (ctx.flags.digest = false ∧ ctx.flags.msg = true)) ∧
      (ctx.flags.key_handle = true ∨ ctx.flags.key_context = true) ∧
      ctx.flags.sig = true ∧ ctx.flags.ticket = true) := by
  refine ⟨fun h => ?_, fun h => ?_, fun h => init_no_message_source env ctx h.1 h.2,
    fun h => ?_⟩
  · rw [init_digest_mismatch env ctx h]
    refine ⟨rfl, rfl, ⟨_, rfl⟩, ?_⟩
    intro e he
    rw [List.mem_singleton.mp he]
    rfl
  · by_cases h1 : ctx.flags.digest = true ∧ (ctx.flags.msg = true ∨ ctx.flags.halg = true)
    · rw [init_digest_mismatch env ctx h1]
      refine ⟨rfl, rfl, ⟨_, rfl⟩, ?_⟩
      intro e he
      rw [List.mem_singleton.mp he]
      rfl
    · rw [init_missing_inputs env ctx h1 h]
      refine ⟨rfl, rfl, ⟨_, rfl⟩, ?_⟩
      intro e he
      rw [List.mem_singleton.mp he]
      rfl
  · have n1 : ¬ (ctx.flags.digest = true ∧ (ctx.flags.msg = true ∨ ctx.flags.halg = true)) := by
      intro h1
      rw [init_digest_mismatch env ctx h1] at h
      exact Bool.noConfusion h
    have n2 : (ctx.flags.key_handle = true ∨ ctx.flags.key_context = true) ∧
        ctx.flags.sig = true ∧ ctx.flags.ticket = true := by
      by_contra h2
      rw [init_missing_inputs env ctx n1 h2] at h
      exact Bool.noConfusion h
    have n3 : ¬ (ctx.flags.digest = false ∧ ctx.flags.msg = false) := by
      intro h3
      rw [init_no_message_source env ctx h3.1 h3.2] at h
      exact Bool.noConfusion h
    refine ⟨?_, n2⟩
    cases hd : ctx.flags.digest <;> cases hm : ctx.flags.msg <;> cases hh : ctx.flags.halg <;>
      simp_all

theorem init_flag_checks_witness :
    (init vsExampleEnv (vsExampleCtx
        { key_handle := true, digest := true, halg := false, msg := true, raw := false
          sig := true, ticket := true, key_context := false })).result = false ∧
    (init vsExampleEnv (vsExampleCtx
        { key_handle := true, digest := false, halg := false, msg := true, raw := false
          sig := true, ticket := true, key_context := false })).result = true :=
  ⟨((init_flag_checks vsExampleEnv (vsExampleCtx
        { key_handle := true, digest := true, halg := false, msg := true, raw := false
          sig := true, ticket := true, key_context := false })).1 ⟨rfl, Or.inl rfl⟩).1,
    by decide⟩

end Tpm2
